import Mathlib

/-!
Verification of the tnetstring codec (Rust sources: lib.rs, error.rs, de.rs, ser.rs).

The wire format and both codecs operate on byte strings; every byte the format
itself uses is ASCII, so the embedding models byte strings as `List Char`, one
`Char` per byte, and all lengths are list lengths (which coincide with Rust's
byte lengths on the inputs exercised here).

The untyped parser (lib.rs) and the typed deserializer (de.rs) recurse on the
input; that recursion is realized here with an explicit fuel parameter so that
every definition is structurally recursive and computable by `rfl`.  The public
wrappers supply fuel exceeding the recursion depth reachable on their input
(each parsed frame consumes at least three bytes); exhausting fuel yields the
distinguished outcome `fuel`, which is distinct from every success and every
error of the source program, so theorems conditioned on a success or on a
specific error are unaffected by the fuel discipline.

Rust slice indexing panics when out of bounds; those aborts are modelled by the
distinguished outcome `panic`, again distinct from every ordinary result.
-/

namespace TNet

/-! ## Byte/character helpers -/

/-- Transliteration of `is_digit` (lib.rs): ASCII decimal digit test. -/
def is_digit (c : Char) : Bool := 48 ≤ c.toNat && c.toNat ≤ 57

/-- The digit character for a value below ten. -/
def digitChar (n : Nat) : Char := Char.ofNat (48 + n)

/-- Value of a run of ASCII digits, most significant first (the accumulation
used by both the Rust `usize` parsing and de.rs `parse_unsigned`). -/
def digitsVal (ds : List Char) : Nat := ds.foldl (fun a c => 10 * a + (c.toNat - 48)) 0

/-- Fueled decimal rendering of a natural number, most significant digit
first.  The fuel only serves to make the recursion structural; `natStr`
supplies enough of it. -/
def natStrAux : Nat → Nat → List Char
  | 0, _ => []
  | f + 1, n =>
    if n < 10 then [digitChar n]
    else natStrAux f (n / 10) ++ [digitChar (n % 10)]

/-- Decimal rendering of a natural number (Rust `u64::to_string` / the
`{}`-formatting of lengths). -/
def natStr (n : Nat) : List Char := natStrAux (n + 1) n

/-- Decimal rendering of a signed integer (Rust `i64::to_string`). -/
def intStr (z : Int) : List Char := if z < 0 then '-' :: natStr z.natAbs else natStr z.toNat

/-- Digit-run step of `str::parse::<usize>`: nonempty, all digits, no
overflow past 2^64 - 1 (a 64-bit target is assumed). -/
def strToUsizeDigits (ds : List Char) : Option Nat :=
  if ds ≠ [] ∧ ds.all is_digit ∧ digitsVal ds < 2 ^ 64 then some (digitsVal ds) else none

/-- Rust `str::parse::<usize>` on a 64-bit target: an optional leading plus,
then a nonempty run of ASCII digits, rejected on overflow past 2^64 - 1. -/
def strToUsize (ds : List Char) : Option Nat :=
  strToUsizeDigits (if ds.head? = some '+' then ds.tail else ds)

/-- Signed value of a digit run under an optional negation. -/
def i64Val (neg : Bool) (ds : List Char) : Int :=
  if neg then -(digitsVal ds : Int) else (digitsVal ds : Int)

/-- Digit-run step of `str::parse::<i64>`: nonempty digits, signed range
check. -/
def i64ParseCore (neg : Bool) (ds : List Char) : Option Int :=
  if ds ≠ [] ∧ ds.all is_digit then
    if -(2 ^ 63) ≤ i64Val neg ds ∧ i64Val neg ds < 2 ^ 63 then some (i64Val neg ds) else none
  else none

/-- Rust `str::parse::<i64>`: optional sign, nonempty digit run, signed range
check. -/
def i64Parse (s : List Char) : Option Int :=
  match s with
  | '-' :: t => i64ParseCore true t
  | '+' :: t => i64ParseCore false t
  | t => i64ParseCore false t

/-- All characters of a list are ASCII digits. -/
def allDigits (l : List Char) : Bool := l.all is_digit

/-- Mantissa part of the Rust `f64` lexical grammar: digits around an optional
single dot, with at least one digit present. -/
def f64Mant (m : List Char) : Bool :=
  let intPart := m.takeWhile (fun c => c ≠ '.')
  let rest := m.drop intPart.length
  match rest with
  | [] => intPart ≠ [] && allDigits intPart
  | _ :: after => (intPart ≠ [] || after ≠ []) && allDigits intPart && allDigits after

/-- Approximation of the lexical grammar accepted by Rust
`str::parse::<f64>` (optional sign; `inf`, `infinity` or `nan` in any case;
or a decimal mantissa with an optional exponent).  Only the success/failure
of the float branch of the untyped parser depends on this; `f64` values
themselves are out of the model's scope and the parser below records the raw
payload instead of a float. -/
def f64Lex (s : List Char) : Bool :=
  let s1 := match s with
    | '+' :: t => t
    | '-' :: t => t
    | t => t
  let low := s1.map Char.toLower
  if low = ("inf").toList ∨ low = ("infinity").toList ∨ low = ("nan").toList then true
  else
    let mant := s1.takeWhile (fun c => c ≠ 'e' && c ≠ 'E')
    let rest := s1.drop mant.length
    match rest with
    | [] => f64Mant mant
    | _ :: ex =>
      let exDigits := match ex with
        | '+' :: t => t
        | '-' :: t => t
        | t => t
      f64Mant mant && exDigits ≠ [] && allDigits exDigits

/-- Boolean test that a list starts with the given pattern (Rust
`str::starts_with`). -/
def startsWithL : List Char → List Char → Bool
  | [], _ => true
  | _ :: _, [] => false
  | a :: p, b :: s => a = b && startsWithL p s

/-- Byte index of the first colon (Rust `str::find` with a colon pattern). -/
def findColon (s : List Char) : Option Nat := List.findIdx? (fun c => c = ':') s

/-! ## lib.rs: the untyped value-tree parser -/

/-- The error enum of lib.rs. -/
inductive TNetStringError
  | UnknownSegmentType
  | UnableToParseInt
  | UnableToParseFloat
  | NoneZeroLengthNull
  | UnableToTake
  | FoundNonStringKey
  deriving DecidableEq

/-- Outcome layer for the untyped parser: an ordinary error from lib.rs, a
Rust panic (out-of-bounds slice), or fuel exhaustion of the embedding (never
signalled by the wrappers on the inputs appearing in the theorems below). -/
inductive PFail
  | panic
  | fuel
  | err (e : TNetStringError)
  deriving DecidableEq

/-- The untyped value tree of lib.rs.  `float` records the raw payload (f64
semantics are out of scope); `str` holds the payload bytes (the
`from_utf8_lossy` conversion is the identity in the byte model); `dict` is
the insertion sequence of a `HashMap`, realized as an association list via
`dictInsert`. -/
inductive TNetString
  | bool (b : Bool)
  | str (s : List Char)
  | int (z : Int)
  | float (payload : List Char)
  | null
  | list (l : List TNetString)
  | dict (d : List (List Char × TNetString))

/-- `HashMap::insert`: replace the binding when the key is present, otherwise
add it. -/
def dictInsert (d : List (List Char × TNetString)) (k : List Char) (v : TNetString) :
    List (List Char × TNetString) :=
  if d.any (fun p => p.1 = k) then d.map (fun p => if p.1 = k then (k, v) else p)
  else d ++ [(k, v)]

/-- `HashMap` lookup on the association-list model. -/
def dictLookup (d : List (List Char × TNetString)) (k : List Char) : Option TNetString :=
  (d.find? (fun p => p.1 = k)).map (fun p => p.2)

/-- Transliteration of `parse_tag` (lib.rs): collect the maximal leading digit
run, parse it as a `usize`, then skip one further byte (the colon position —
the source never checks that byte, it only advances past it) and return the
rest.  When the digit run reaches the end of the input the source slices past
the end with the advanced index and Rust panics; that is the `panic`
outcome. -/
def parse_tag (data : List Char) : Except PFail (List Char × Nat) :=
  match strToUsize (data.takeWhile is_digit) with
  | none => .error (.err .UnableToParseInt)
  | some num =>
    if (data.takeWhile is_digit).length + 1 ≤ data.length then
      .ok (data.drop ((data.takeWhile is_digit).length + 1), num)
    else .error .panic

/-- Transliteration of `take` (lib.rs). -/
def take' (data : List Char) (n : Nat) : Except PFail (List Char × List Char) :=
  if n ≤ data.length then .ok (data.drop n, data.take n) else .error (.err .UnableToTake)

/-- Transliteration of `split_data` (lib.rs): `parse_tag` then `take`. -/
def split_data (data : List Char) : Except PFail (List Char × List Char) :=
  match parse_tag data with
  | .error e => .error e
  | .ok (res, num) => take' res num

/-- Control state of the fueled untyped parser: a single top-level parse, the
list-accumulation loop of the right-bracket branch, or the pair-accumulation
loop of the right-brace branch of `parse` (lib.rs). -/
inductive PMode
  | one
  | list (acc : List TNetString)
  | dict (acc : List (List Char × TNetString))

/-- Fueled transliteration of `parse` (lib.rs), with the list and dict loops
of the source inlined as the `list` and `dict` modes and the body of
`parse_pair` inlined in the dict mode (the source's dict loop calls
`parse_pair`, which calls `parse` twice and then requires the key to be a
string). -/
def parseAux : Nat → PMode → List Char → Except PFail (List Char × TNetString)
  | 0, _, _ => .error .fuel
  | n + 1, .one, data =>
    match split_data data with
    | .error e => .error e
    | .ok (type_tag_content, content) =>
      match take' type_tag_content 1 with
      | .error e => .error e
      | .ok (remain, type_tag) =>
        match type_tag with
        | [t] =>
          if t = '!' then .ok (remain, .bool (content.length == 4))
          else if t = ',' then .ok (remain, .str content)
          else if t = '#' then
            match i64Parse content with
            | some num => .ok (remain, .int num)
            | none => .error (.err .UnableToParseInt)
          else if t = '^' then
            if f64Lex content then .ok (remain, .float content)
            else .error (.err .UnableToParseFloat)
          else if t = '~' then
            if content.isEmpty then .ok (remain, .null)
            else .error (.err .NoneZeroLengthNull)
          else if t = ']' then parseAux n (.list []) content
          else if t = '\x7d' then parseAux n (.dict []) content
          else .error (.err .UnknownSegmentType)
        | _ => .error .panic
  | n + 1, .list acc, remain_content =>
    if remain_content.isEmpty then .ok (remain_content, .list acc)
    else
      match parseAux n .one remain_content with
      | .error e => .error e
      | .ok (remain, v) => parseAux n (.list (acc ++ [v])) remain
  | n + 1, .dict acc, remain_content =>
    if remain_content.isEmpty then .ok (remain_content, .dict acc)
    else
      match parseAux n .one remain_content with
      | .error e => .error e
      | .ok (remain1, parsed_key) =>
        match parseAux n .one remain1 with
        | .error e => .error e
        | .ok (remain2, parsed_value) =>
          match parsed_key with
          | .str key => parseAux n (.dict (dictInsert acc key parsed_value)) remain2
          | _ => .error (.err .FoundNonStringKey)

/-- The tag dispatch of `parse` (lib.rs) after `split_data`, written as a
separate function so that single steps of `parseAux` can be exposed in
proofs; it is definitionally the body of the `one` mode of `parseAux`. -/
def parseDispatch (n : Nat) (type_tag_content content : List Char) :
    Except PFail (List Char × TNetString) :=
  match take' type_tag_content 1 with
  | .error e => .error e
  | .ok (remain, type_tag) =>
    match type_tag with
    | [t] =>
      if t = '!' then .ok (remain, .bool (content.length == 4))
      else if t = ',' then .ok (remain, .str content)
      else if t = '#' then
        match i64Parse content with
        | some num => .ok (remain, .int num)
        | none => .error (.err .UnableToParseInt)
      else if t = '^' then
        if f64Lex content then .ok (remain, .float content)
        else .error (.err .UnableToParseFloat)
      else if t = '~' then
        if content.isEmpty then .ok (remain, .null)
        else .error (.err .NoneZeroLengthNull)
      else if t = ']' then parseAux n (.list []) content
      else if t = '\x7d' then parseAux n (.dict []) content
      else .error (.err .UnknownSegmentType)
    | _ => .error .panic

/-- Public `parse` (lib.rs).  The fuel exceeds the reachable recursion depth:
every successfully parsed frame consumes at least three bytes of its input. -/
def parse (data : List Char) : Except PFail (List Char × TNetString) :=
  parseAux (data.length + 2) .one data

/-- Transliteration of `parse_pair` (lib.rs): parse a key frame, then a value
frame, then require the key to be a string. -/
def parse_pair (data : List Char) :
    Except PFail (List Char × (List Char × TNetString)) :=
  match parse data with
  | .error e => .error e
  | .ok (remain, parsed_key) =>
    match parse remain with
    | .error e => .error e
    | .ok (remain2, parsed_value) =>
      match parsed_key with
      | .str key => .ok (remain2, (key, parsed_value))
      | _ => .error (.err .FoundNonStringKey)

/-! ## error.rs: the typed adapter's error enum -/

/-- The error enum of error.rs.  `Message` carries free-form text raised by
the generic framework. -/
inductive Error
  | Message (msg : List Char)
  | UnknownSegmentType
  | LengthNotFound
  | StackProblem
  | NonUtf8Str
  | UnsupportedType
  | Eof
  | ParsingLength
  | UnusedParseData
  | ParsingUnit
  | ParsingBool
  | ParsingMap
  | ParsingEnum
  | ParsingUnsigned
  | ParsingString
  | ParsingSeq
  | ParsingUnitVariant
  deriving DecidableEq

/-- Outcome layer for the typed deserializer: an `Error`, a Rust panic
(out-of-bounds slice in de.rs), or fuel exhaustion of the embedding. -/
inductive DErr
  | panic
  | fuel
  | e (err : Error)
  deriving DecidableEq

/-! ## de.rs: the typed deserializer -/

/-- Modelled from the spec: the enum `crate::parse::TNetStringType` used by
de.rs is declared in a module that is not under src/; its variants follow the
tag taxonomy of sections 4.1 - 4.3 of the design (one kind per recognized
tag byte). -/
inductive TNetStringType
  | Bool
  | Str
  | Int
  | Float
  | Null
  | List
  | Dict
  deriving DecidableEq

/-- Modelled from the spec: `crate::parse::parse_type` used by de.rs is
declared in a module that is not under src/.  Following sections 4.1 and 4.3
of the design, it reads the length prefix of the next frame (a maximal digit
run terminated by a colon), then classifies the single tag byte that follows
the payload, without consuming anything. -/
def parse_type (data : List Char) : Except Error TNetStringType :=
  match strToUsize (data.takeWhile is_digit) with
  | none => .error .ParsingLength
  | some n =>
    match data.drop (data.takeWhile is_digit).length with
    | [] => .error .ParsingLength
    | c :: afterColon =>
      if c = ':' then
        match afterColon.drop n with
        | t :: _ =>
          if t = '!' then .ok .Bool
          else if t = ',' then .ok .Str
          else if t = '#' then .ok .Int
          else if t = '^' then .ok .Float
          else if t = '~' then .ok .Null
          else if t = ']' then .ok .List
          else if t = '\x7d' then .ok .Dict
          else .error .UnknownSegmentType
        | [] => .error .Eof
      else .error .ParsingLength

/-- Transliteration of `Deserializer::parse_bool` (de.rs): literal prefix
match on the two exact encodings. -/
def parse_bool (input : List Char) : Except DErr (Bool × List Char) :=
  if startsWithL (("4:true!").toList) input then .ok (true, input.drop 7)
  else if startsWithL (("5:false!").toList) input then .ok (false, input.drop 8)
  else .error (.e .ParsingBool)

/-- Transliteration of `Deserializer::parse_unsigned` (de.rs): find the first
colon, parse everything before it as a `usize` length, slice out that many
bytes, accumulate their digit values (most significant first), and advance
the cursor past the payload and one further byte.  The two slices panic when
they run past the end of the input; the accumulation is modelled exactly for
ASCII digit payloads (the source performs native unsigned arithmetic on
`c - 48`, which agrees with the model whenever no overflow or underflow
occurs, and only digit payloads are exercised by the theorems below). -/
def parse_unsigned (input : List Char) : Except DErr (Nat × List Char) :=
  match findColon input with
  | none => .error (.e .ParsingUnsigned)
  | some i =>
    match strToUsize (input.take i) with
    | none => .error (.e .ParsingUnsigned)
    | some val_len =>
      if i + 1 + val_len ≤ input.length then
        if i + 1 + val_len + 1 ≤ input.length then
          .ok (digitsVal ((input.drop (i + 1)).take val_len), input.drop (i + 1 + val_len + 1))
        else .error .panic
      else .error .panic

/-- Transliteration of `Deserializer::parse_signed` (de.rs): like
`parse_unsigned` but a leading minus switches the accumulation from addition
to subtraction (note the source returns `ParsingString` when no colon is
found — that asymmetry with `parse_unsigned` is preserved).  The digit value
is modelled as the integer `c - 48`, which agrees with the source's `i8`
arithmetic on ASCII digits. -/
def signedFold (is_negated : Bool) (ds : List Char) : Int :=
  ds.foldl
    (fun (a : Int) c =>
      10 * a + (if is_negated then -((c.toNat : Int) - 48) else (c.toNat : Int) - 48)) 0

/-- The signed accumulation of `parse_signed` over a sliced payload: a
leading minus switches every addition to a subtraction (de.rs). -/
def signedVal (data : List Char) : Int :=
  if data.head? = some '-' then signedFold true data.tail else signedFold false data

def parse_signed (input : List Char) : Except DErr (Int × List Char) :=
  match findColon input with
  | none => .error (.e .ParsingString)
  | some i =>
    match strToUsize (input.take i) with
    | none => .error (.e .ParsingUnsigned)
    | some val_len =>
      if i + 1 + val_len ≤ input.length then
        if i + 1 + val_len + 1 ≤ input.length then
          .ok (signedVal ((input.drop (i + 1)).take val_len), input.drop (i + 1 + val_len + 1))
        else .error .panic
      else .error .panic

/-- Transliteration of `Deserializer::parse_string` (de.rs): require the next
frame to classify as a string, then slice out the payload between the first
colon and the trailing tag and advance past the tag. -/
def parse_string (input : List Char) : Except DErr (List Char × List Char) :=
  match parse_type input with
  | .ok .Str =>
    match findColon input with
    | none => .error (.e .ParsingString)
    | some i =>
      match strToUsize (input.take i) with
      | none => .error (.e .ParsingUnsigned)
      | some val_len =>
        if val_len + (i + 1) ≤ input.length then
          if val_len + (i + 1) + 1 ≤ input.length then
            .ok ((input.drop (i + 1)).take val_len, input.drop (val_len + (i + 1) + 1))
          else .error .panic
        else .error .panic
  | _ => .error (.e .ParsingString)

/-- Scalar target shapes of the typed adapter with their own `deserialize_*`
method in de.rs (not forwarded to `deserialize_any`): booleans, 64-bit signed
integers, 64- and 32-bit unsigned integers, borrowed strings, and unit. -/
inductive SShape
  | bool
  | i64
  | u64
  | u32
  | str
  | unit
  deriving DecidableEq

/-- Scalar values for the shapes of `SShape`.  Integer values are carried as
unbounded integers; the well-formedness predicate of the round-trip theorem
confines them to their Rust ranges. -/
inductive Scalar
  | bool (b : Bool)
  | i64 (z : Int)
  | u64 (n : Nat)
  | u32 (n : Nat)
  | str (s : List Char)
  | unit
  deriving DecidableEq

/-- The integer widths without their own `deserialize_*` method in de.rs:
their targets appear in the `forward_to_deserialize_any!` list, so they
dispatch on the last character of the remaining input. -/
inductive IntW
  | i8
  | i16
  | i32
  | u8
  | u16
  deriving DecidableEq

/-- Lower bound of a forwarded integer width (the range serde's `visit_i64`
enforces at that target). -/
def iwLo : IntW → Int
  | .i8 => -(2 ^ 7)
  | .i16 => -(2 ^ 15)
  | .i32 => -(2 ^ 31)
  | .u8 => 0
  | .u16 => 0

/-- Upper bound of a forwarded integer width. -/
def iwHi : IntW → Int
  | .i8 => 2 ^ 7 - 1
  | .i16 => 2 ^ 15 - 1
  | .i32 => 2 ^ 31 - 1
  | .u8 => 2 ^ 8 - 1
  | .u16 => 2 ^ 16 - 1

/-- Shape of one enum variant as seen by the typed adapter: a unit variant, a
newtype variant over a scalar, a tuple variant over scalars, or a struct
variant over named scalar fields. -/
inductive VShape
  | unitV
  | newtypeV (s : SShape)
  | tupleV (ss : List SShape)
  | structV (fs : List (List Char × SShape))
  deriving DecidableEq

/-- Variant lookup of the derived enum visitor: the decoded identifier is
matched against the declared variant names. -/
def vLookup (name : List Char) : List (List Char × VShape) → Option VShape
  | [] => none
  | (n, vs) :: rest => if n = name then some vs else vLookup name rest

/-- Target shapes requested from the typed deserializer: a directly
dispatched scalar, a float (always unsupported), an option over a scalar, a
sequence over a scalar, a string-keyed map over a scalar, a sub-64-bit
integer width (forwarded through `deserialize_any`), a tuple of scalars, a
flat struct of named scalar fields, or an enum with the declared variant
table.  This is the fragment of the generic data model needed by the
claims. -/
inductive Shape
  | sc (s : SShape)
  | f32
  | f64
  | opt (s : SShape)
  | seq (s : SShape)
  | map (v : SShape)
  | smallInt (w : IntW)
  | tup (ss : List SShape)
  | strukt (fs : List (List Char × SShape))
  | enm (vs : List (List Char × VShape))
  deriving DecidableEq

/-- Values of the typed adapter's data model used by the claims: scalars,
options over scalars, sequences and string-keyed maps over scalars,
sub-64-bit integers, tuples of scalars, flat structs with scalar fields, and
enum variant values (unit, newtype, tuple and struct variants). -/
inductive FValue
  | scalar (sc : Scalar)
  | someScalar (sc : Scalar)
  | nne
  | seq (elems : List Scalar)
  | map (pairs : List (List Char × Scalar))
  | structVariant (name : List Char) (fields : List (List Char × Scalar))
  | smallInt (w : IntW) (z : Int)
  | tup (elems : List Scalar)
  | strukt (fields : List (List Char × Scalar))
  | unitVariant (name : List Char)
  | newtypeVariant (name : List Char) (sc : Scalar)
  | tupleVariant (name : List Char) (elems : List Scalar)
  deriving DecidableEq

/-- Shape of a scalar value. -/
def scShape : Scalar → SShape
  | .bool _ => .bool
  | .i64 _ => .i64
  | .u64 _ => .u64
  | .u32 _ => .u32
  | .str _ => .str
  | .unit => .unit

/-- Dispatch of the typed deserializer for a scalar shape.  The generic
framework's derived implementations for these targets invoke
`deserialize_bool`, `deserialize_i64`, `deserialize_u64`, `deserialize_u32`,
`deserialize_str`/`deserialize_string` and `deserialize_unit` respectively
(de.rs), which call the corresponding parse functions; `visit_i64`,
`visit_u64`, `visit_u32` and the other scalar visits are identities at these
exact-width targets.  The 32-bit unsigned accumulation of the source wraps
at `2^32` where the model's `Nat` does not; the two agree on every payload
whose value fits the width, which is all the round-trip theorem uses. -/
def decodeScalar (ssh : SShape) (input : List Char) : Except DErr (Scalar × List Char) :=
  match ssh with
  | .bool =>
    match parse_bool input with
    | .ok (b, rest) => .ok (.bool b, rest)
    | .error e => .error e
  | .i64 =>
    match parse_signed input with
    | .ok (z, rest) => .ok (.i64 z, rest)
    | .error e => .error e
  | .u64 =>
    match parse_unsigned input with
    | .ok (n, rest) => .ok (.u64 n, rest)
    | .error e => .error e
  | .u32 =>
    match parse_unsigned input with
    | .ok (n, rest) => .ok (.u32 n, rest)
    | .error e => .error e
  | .str =>
    match parse_string input with
    | .ok (s, rest) => .ok (.str s, rest)
    | .error e => .error e
  | .unit =>
    if startsWithL (("0:~").toList) input then .ok (.unit, input.drop 3)
    else .error (.e .ParsingUnit)

/-- The sequence-access loop of de.rs (`SeqAccess::next_element_seed` driven
by the visitor of a sequence target): report exhaustion exactly when the
narrowed cursor is empty, otherwise decode one more element.  Fueled; the
caller supplies fuel exceeding the cursor length, and every successful
element decode consumes at least two bytes. -/
def seqLoopF : Nat → SShape → List Char → List Scalar →
    Except DErr (List Scalar × List Char)
  | 0, _, _, _ => .error .fuel
  | f + 1, ssh, cursor, acc =>
    if cursor.isEmpty then .ok (acc, cursor)
    else
      match decodeScalar ssh cursor with
      | .error e => .error e
      | .ok (sc, cursor') => seqLoopF f ssh cursor' (acc ++ [sc])

/-- The map-access loop of de.rs (`MapAccess::next_key_seed` /
`next_value_seed` driven by the visitor of a string-keyed map target): report
exhaustion exactly when the narrowed cursor is empty, otherwise decode a
string key (the derived key seed for a string key calls
`deserialize_string`, hence `parse_string`) and then a value. -/
def mapLoopF : Nat → SShape → List Char → List (List Char × Scalar) →
    Except DErr (List (List Char × Scalar) × List Char)
  | 0, _, _, _ => .error .fuel
  | f + 1, vsh, cursor, acc =>
    if cursor.isEmpty then .ok (acc, cursor)
    else
      match parse_string cursor with
      | .error e => .error e
      | .ok (k, cursor') =>
        match decodeScalar vsh cursor' with
        | .error e => .error e
        | .ok (sc, cursor'') => mapLoopF f vsh cursor'' (acc ++ [(k, sc)])

/-- The cursor narrowing performed by `deserialize_seq` and `deserialize_map`
(de.rs): everything strictly between the first colon (at index `i`) and the
last byte of the remaining input — the source's slice
`input[start_pos..input.len() - 1]`. -/
def narrowFrame (input : List Char) (i : Nat) : List Char :=
  (input.take (input.length - 1)).drop (i + 1)

/-- The free-form `Error::Message` raised when a visitor rejects the value it
is shown (serde's invalid-type error; its exact wording depends on the target
type's descriptor, which the model does not track). -/
def visitErr : DErr := .e (.Message (("invalid type").toList))

/-- The free-form `Error::Message` of the derived tuple visitor when the
sequence access reports exhaustion before every component was read. -/
def invalidLength : DErr := .e (.Message (("invalid length").toList))

/-- The free-form `Error::Message` of the derived enum visitor when the
decoded identifier matches no declared variant. -/
def unknownVariantErr : DErr := .e (.Message (("unknown variant").toList))

/-- The free-form `Error::Message` of serde's `visit_i64` at a sub-64-bit
integer target when the visited value is outside the target's range. -/
def rangeErr : DErr := .e (.Message (("out of range integral value").toList))

/-- The free-form `Error::Message` of the derived struct visitor when a
declared field was never seen. -/
def missingField : DErr := .e (.Message (("missing field").toList))

/-- The free-form `Error::Message` standing for a struct key arriving outside
the declared order modelled here (the derived visitor would buffer or skip
it; no theorem exercises this branch). -/
def fieldMismatch : DErr := .e (.Message (("unexpected field").toList))

/-- The dispatch of `deserialize_any` (de.rs) for a visitor that accepts none
of the self-describing forms — the situation of a forwarded target (one in
the `forward_to_deserialize_any!` list) whose own tag differs from the last
character of the input.  Each branch runs the dispatched method of de.rs:
parse failures keep their errors, and every visit that is reached is
rejected by the visitor with the free-form invalid-type `Message`
(`deserialize_f64` fails with `UnsupportedType` before visiting, and
`deserialize_seq`/`deserialize_map` narrow the cursor before the rejected
visit exactly as the source does). -/
def anyRejectTag (c : Char) (input : List Char) : DErr :=
  if c = '~' then
    (if startsWithL (("0:~").toList) input then visitErr else .e .ParsingUnit)
  else if c = '!' then
    (match parse_bool input with
     | .ok _ => visitErr
     | .error e => e)
  else if c = ',' then
    (match parse_string input with
     | .ok _ => visitErr
     | .error e => e)
  else if c = '^' then .e .UnsupportedType
  else if c = '#' then
    (match parse_signed input with
     | .ok _ => visitErr
     | .error e => e)
  else if c = ']' then
    (match parse_type input with
     | .ok .List =>
       (match findColon input with
        | none => .e .ParsingString
        | some _ => visitErr)
     | _ => .e .ParsingSeq)
  else if c = '\x7d' then
    (match parse_type input with
     | .ok .Dict =>
       (match findColon input with
        | none => .e .ParsingString
        | some _ => visitErr)
     | _ => .e .ParsingMap)
  else .e .UnknownSegmentType

/-- The sequence-access run of a tuple target (`SeqAccess::next_element_seed`
of de.rs driven by the derived tuple visitor): the visitor requests exactly
one element per component; before each element the access reports exhaustion
when the cursor is empty, which the tuple visitor turns into its
invalid-length error; after the last component the visitor stops, leaving any
remaining cursor unconsumed. -/
def tupElemsF : List SShape → List Char → Except DErr (List Scalar × List Char)
  | [], cursor => .ok ([], cursor)
  | ssh :: rest, cursor =>
    if cursor.isEmpty then .error invalidLength
    else
      match decodeScalar ssh cursor with
      | .error e => .error e
      | .ok (sc, cursor') =>
        match tupElemsF rest cursor' with
        | .error e => .error e
        | .ok (scs, cursor'') => .ok (sc :: scs, cursor'')

/-- The map-access run of a flat struct target (`MapAccess::next_key_seed` /
`next_value_seed` of de.rs driven by the derived struct visitor), modelled on
the runs the serializer produces: the field keys arrive as string frames in
declared order (each key is decoded through `deserialize_identifier`, hence
`parse_string`) followed by their scalar values.  Exhaustion while declared
fields remain is the visitor's missing-field error; a key outside the
declared order is reported as a free-form `Message` (the derived visitor
would also accept reordered keys and skip unknown ones — runs the serializer
never produces and no theorem exercises); after the declared fields any
leftover cursor is returned unconsumed. -/
def struktFieldsF : List (List Char × SShape) → List Char →
    Except DErr (List (List Char × Scalar) × List Char)
  | [], cursor => .ok ([], cursor)
  | (fname, ssh) :: rest, cursor =>
    if cursor.isEmpty then .error missingField
    else
      match parse_string cursor with
      | .error e => .error e
      | .ok (k, cursor') =>
        if k = fname then
          match decodeScalar ssh cursor' with
          | .error e => .error e
          | .ok (sc, cursor'') =>
            match struktFieldsF rest cursor'' with
            | .error e => .error e
            | .ok (fs, cursor''') => .ok ((k, sc) :: fs, cursor''')
        else .error fieldMismatch

/-- Top-level dispatch of the typed deserializer for the shapes of `Shape`,
transliterating `deserialize_bool` .. `deserialize_enum` of de.rs.  Floats
fail unconditionally with `UnsupportedType`.  An option peeks for the exact
prefix of the null frame and otherwise delegates to the inner shape.
Sequences and maps require the matching frame kind, then narrow the cursor
to everything between the first colon and the last byte of the remaining
input (exactly the source's slice `input[start_pos..input.len() - 1]`) and
run the access loop on the narrowed cursor.  A sub-64-bit integer, tuple or
struct target sits in the `forward_to_deserialize_any!` list, so it first
dispatches on the last character of the remaining input (`last_char`, `Eof`
when the input is empty): its own tag reaches `deserialize_i64` (with
serde's range-checked `visit_i64`), `deserialize_seq` or `deserialize_map`
respectively, and every other tag runs the mismatching method of
`deserialize_any`, summarized by `anyRejectTag`.  An enum target calls
`deserialize_enum` directly: a string frame takes everything between the
first colon and the last byte as the variant name, consumes the whole input
and requires a unit variant (the derived visitor on a string rejects every
other variant kind); a dict frame narrows the cursor, decodes the variant
identifier through `parse_string` (`Enum::variant_seed`), and dispatches per
the declared variant kind — `unit_variant` fails with `ParsingUnitVariant`,
a newtype variant decodes its scalar payload, and tuple and struct variants
run `deserialize_seq` / `deserialize_map` on the current cursor; every
other frame kind fails with `ParsingEnum`. -/
def decodeTop (sh : Shape) (input : List Char) : Except DErr (FValue × List Char) :=
  match sh with
  | .sc ssh =>
    match decodeScalar ssh input with
    | .ok (sc, rest) => .ok (.scalar sc, rest)
    | .error e => .error e
  | .f32 => .error (.e .UnsupportedType)
  | .f64 => .error (.e .UnsupportedType)
  | .opt ssh =>
    if startsWithL (("0:~").toList) input then .ok (.nne, input.drop 3)
    else
      match decodeScalar ssh input with
      | .ok (sc, rest) => .ok (.someScalar sc, rest)
      | .error e => .error e
  | .seq ssh =>
    match parse_type input with
    | .ok .List =>
      match findColon input with
      | none => .error (.e .ParsingString)
      | some i =>
        match seqLoopF ((narrowFrame input i).length + 1) ssh (narrowFrame input i) [] with
        | .ok (elems, rest) => .ok (.seq elems, rest)
        | .error e => .error e
    | _ => .error (.e .ParsingSeq)
  | .map vsh =>
    match parse_type input with
    | .ok .Dict =>
      match findColon input with
      | none => .error (.e .ParsingString)
      | some i =>
        match mapLoopF ((narrowFrame input i).length + 1) vsh (narrowFrame input i) [] with
        | .ok (pairs, rest) => .ok (.map pairs, rest)
        | .error e => .error e
    | _ => .error (.e .ParsingMap)
  | .smallInt w =>
    match input.getLast? with
    | none => .error (.e .Eof)
    | some c =>
      if c = '#' then
        match parse_signed input with
        | .error e => .error e
        | .ok (z, rest) =>
          if iwLo w ≤ z ∧ z ≤ iwHi w then .ok (.smallInt w z, rest)
          else .error rangeErr
      else .error (anyRejectTag c input)
  | .tup ss =>
    match input.getLast? with
    | none => .error (.e .Eof)
    | some c =>
      if c = ']' then
        match parse_type input with
        | .ok .List =>
          match findColon input with
          | none => .error (.e .ParsingString)
          | some i =>
            match tupElemsF ss (narrowFrame input i) with
            | .ok (elems, rest) => .ok (.tup elems, rest)
            | .error e => .error e
        | _ => .error (.e .ParsingSeq)
      else .error (anyRejectTag c input)
  | .strukt fs =>
    match input.getLast? with
    | none => .error (.e .Eof)
    | some c =>
      if c = '\x7d' then
        match parse_type input with
        | .ok .Dict =>
          match findColon input with
          | none => .error (.e .ParsingString)
          | some i =>
            match struktFieldsF fs (narrowFrame input i) with
            | .ok (fields, rest) => .ok (.strukt fields, rest)
            | .error e => .error e
        | _ => .error (.e .ParsingMap)
      else .error (anyRejectTag c input)
  | .enm vs =>
    match parse_type input with
    | .ok .Str =>
      match findColon input with
      | none => .error (.e .ParsingLength)
      | some i =>
        match vLookup (narrowFrame input i) vs with
        | some .unitV => .ok (.unitVariant (narrowFrame input i), [])
        | some _ => .error visitErr
        | none => .error unknownVariantErr
    | .ok .Dict =>
      match findColon input with
      | none => .error (.e .ParsingUnsigned)
      | some i =>
        match parse_string (narrowFrame input i) with
        | .error e => .error e
        | .ok (name, cursor) =>
          match vLookup name vs with
          | none => .error unknownVariantErr
          | some .unitV => .error (.e .ParsingUnitVariant)
          | some (.newtypeV ssh) =>
            match decodeScalar ssh cursor with
            | .error e => .error e
            | .ok (sc, rest) => .ok (.newtypeVariant name sc, rest)
          | some (.tupleV ss) =>
            match parse_type cursor with
            | .ok .List =>
              match findColon cursor with
              | none => .error (.e .ParsingString)
              | some j =>
                match tupElemsF ss (narrowFrame cursor j) with
                | .ok (elems, rest) => .ok (.tupleVariant name elems, rest)
                | .error e => .error e
            | _ => .error (.e .ParsingSeq)
          | some (.structV fs) =>
            match parse_type cursor with
            | .ok .Dict =>
              match findColon cursor with
              | none => .error (.e .ParsingString)
              | some j =>
                match struktFieldsF fs (narrowFrame cursor j) with
                | .ok (fields, rest) => .ok (.structVariant name fields, rest)
                | .error e => .error e
            | _ => .error (.e .ParsingMap)
    | _ => .error (.e .ParsingEnum)

/-- Transliteration of `from_str` (de.rs): run the requested deserialization,
then succeed only when the cursor is empty, otherwise report
`UnusedParseData`. -/
def from_str (sh : Shape) (s : List Char) : Except DErr FValue :=
  match decodeTop sh s with
  | .ok (t, rest) => if rest.isEmpty then .ok t else .error (.e .UnusedParseData)
  | .error e => .error e

/-! ## ser.rs: the typed serializer -/

/-- The serializer's staging stack (`Serializer.output`, a `Vec<String>`).
The head of the list models the last element of the vector, i.e. the current
top buffer. -/
def St : Type := List (List Char)

/-- Transliteration of `Serializer::add_to_output`: append to the top buffer;
silently do nothing when the stack is empty (the source's `if let`). -/
def addToOutput (st : St) (v : List Char) : St :=
  match st with
  | [] => []
  | b :: rest => (b ++ v) :: rest

/-- Transliteration of `Serializer::add_string_to_stack`: push a fresh empty
buffer. -/
def pushBuf (st : St) : St := [] :: st

/-- One complete frame: the length prefix, the colon, the content, and the
trailing tag byte (the `{len}:{content}{tag}` formatting of ser.rs). -/
def wrapFrame (tag : Char) (b : List Char) : List Char :=
  natStr b.length ++ ':' :: (b ++ [tag])

/-- A string frame (`serialize_str` of ser.rs). -/
def frameStr (s : List Char) : List Char := wrapFrame ',' s

/-- Scalar encodings of ser.rs: `serialize_bool` appends the two literal
frames; the integer serializers format the decimal text of the (widened)
value with its length and a hash tag; `serialize_str` a comma tag;
`serialize_unit` (also reached from `serialize_none`) the literal null
frame. -/
def encScalar : Scalar → List Char
  | .bool true => ("4:true!").toList
  | .bool false => ("5:false!").toList
  | .i64 z => wrapFrame '#' (intStr z)
  | .u64 n => wrapFrame '#' (natStr n)
  | .u32 n => wrapFrame '#' (natStr n)
  | .str s => wrapFrame ',' s
  | .unit => ("0:~").toList

/-- Serialize a run of scalar sequence elements (`SerializeSeq::serialize_element`
invocations): each appends its frame to the current top buffer. -/
def appendScalars (scs : List Scalar) (st : St) : St :=
  scs.foldl (fun s sc => addToOutput s (encScalar sc)) st

/-- Serialize a run of map entries (`SerializeMap::serialize_key` /
`serialize_value` invocations with string keys and scalar values). -/
def appendPairs (ps : List (List Char × Scalar)) (st : St) : St :=
  ps.foldl (fun s p => addToOutput (addToOutput s (frameStr p.1)) (encScalar p.2)) st

/-- Serialize the field run of a struct variant
(`SerializeStructVariant::serialize_field` invocations): the source pushes a
fresh buffer for every field before serializing the field's key string and
value. -/
def svFields (fields : List (List Char × Scalar)) (st : St) : St :=
  fields.foldl
    (fun s p => addToOutput (addToOutput (pushBuf s) (frameStr p.1)) (encScalar p.2)) st

/-- `SerializeSeq::end`: pop the top buffer and append it, wrapped as a list
frame, to the new top (silently doing nothing when the stack is empty). -/
def seqEnd (st : St) : St :=
  match st with
  | [] => []
  | b :: rest => addToOutput rest (wrapFrame ']' b)

/-- `SerializeMap::end` (also `SerializeStruct::end`): pop the top buffer and
append it, wrapped as a dict frame, to the new top. -/
def mapEnd (st : St) : St :=
  match st with
  | [] => []
  | b :: rest => addToOutput rest (wrapFrame '\x7d' b)

/-- The in-place rewrap of the top buffer performed at the end of
`serialize_newtype_variant`, `SerializeTupleVariant::end` and
`SerializeStructVariant::end`: replace the whole top buffer by itself wrapped
as a dict frame. -/
def wrapTop (st : St) : St :=
  match st with
  | [] => []
  | t :: rest => wrapFrame '\x7d' t :: rest

/-- The serde-driven run of the serializer over a value of the fragment,
following the call sequences the generic framework issues (ser.rs): scalars
and `None`/`Some` append directly (`serialize_some` forwards to the inner
value, `serialize_none` to `serialize_unit`); a sequence pushes a buffer,
serializes its elements and closes with `SerializeSeq::end`; a map likewise
with `SerializeMap::end`; a struct variant first serializes the variant name
as a plain string into the current buffer (`serialize_struct_variant`), then
runs its fields (each of which pushes a fresh buffer, per
`SerializeStructVariant::serialize_field`), and closes with
`SerializeStructVariant::end` (one pop-and-wrap followed by the in-place
rewrap of the top buffer).  A sub-64-bit integer widens
(`serialize_i8`/`serialize_i16`/`serialize_i32` forward to `serialize_i64`,
`serialize_u8`/`serialize_u16` to `serialize_u64`) and appends the decimal
text of the widened value — `intStr z`, which on the nonnegative values the
unsigned widths carry is the `u64` decimal.  A tuple serializes like a
sequence (`serialize_tuple` forwards to `serialize_seq`,
`SerializeTuple::end` wraps as a list frame) and a struct like a map
(`serialize_struct` forwards to `serialize_map`, each
`SerializeStruct::serialize_field` appends the key string then the value,
`SerializeStruct::end` wraps as a dict frame).  A unit variant serializes
its name as a plain string (`serialize_unit_variant`); a newtype variant
serializes the name, then the payload, then rewraps the top buffer in place
as a dict frame (`serialize_newtype_variant`); a tuple variant serializes
the name into the current buffer, pushes a fresh buffer for the elements,
and on `SerializeTupleVariant::end` wraps them as a list frame onto the name
buffer and rewraps that as a dict frame. -/
def serFrag : FValue → St → St
  | .scalar sc, st => addToOutput st (encScalar sc)
  | .someScalar sc, st => addToOutput st (encScalar sc)
  | .nne, st => addToOutput st (("0:~").toList)
  | .seq scs, st => seqEnd (appendScalars scs (pushBuf st))
  | .map ps, st => mapEnd (appendPairs ps (pushBuf st))
  | .structVariant name fields, st =>
    wrapTop (mapEnd (svFields fields (addToOutput st (frameStr name))))
  | .smallInt _ z, st => addToOutput st (wrapFrame '#' (intStr z))
  | .tup elems, st => seqEnd (appendScalars elems (pushBuf st))
  | .strukt fields, st => mapEnd (appendPairs fields (pushBuf st))
  | .unitVariant name, st => addToOutput st (frameStr name)
  | .newtypeVariant name sc, st =>
    wrapTop (addToOutput (addToOutput st (frameStr name)) (encScalar sc))
  | .tupleVariant name elems, st =>
    wrapTop (seqEnd (appendScalars elems (pushBuf (addToOutput st (frameStr name)))))

/-- Transliteration of `to_string` (ser.rs): run the serializer on a stack
holding one empty buffer, then return the last buffer, or `StackProblem`
when the stack ended up empty. -/
def to_string (v : FValue) : Except Error (List Char) :=
  match (serFrag v [[]]).head? with
  | some b => .ok b
  | none => .error .StackProblem

/-! ## Fragment well-formedness and shape compatibility -/

/-- Concatenated element frames of a sequence (the payload of its list
frame). -/
def seqPayload (scs : List Scalar) : List Char := (scs.map encScalar).flatten

/-- Concatenated entry frames of a map (the payload of its dict frame). -/
def mapPayload (ps : List (List Char × Scalar)) : List Char :=
  (ps.map (fun p => frameStr p.1 ++ encScalar p.2)).flatten

/-- Scalar well-formedness: integer values within their Rust width, string
lengths below 2^64 (so their length prefix is a valid `usize`). -/
def wfSc : Scalar → Bool
  | .bool _ => true
  | .i64 z => decide (-(2 ^ 63) ≤ z ∧ z < 2 ^ 63)
  | .u64 n => decide (n < 2 ^ 64)
  | .u32 n => decide (n < 2 ^ 32)
  | .str s => decide (s.length < 2 ^ 64)
  | .unit => true

/-- Well-formedness of a fragment value for the round-trip theorem: scalars
in range; the inner value of a `Some` not unit (its encoding would collide
with the null frame); sub-64-bit integers within their width; struct
variants with exactly one field (with two or more, the serializer's
per-field buffer pushes against a single pop break the claimed shape — see
the C4 counterexample); and every frame payload length below 2^64 so its
length prefix is a valid `usize`. -/
def wfF : FValue → Bool
  | .scalar sc => wfSc sc
  | .someScalar sc => wfSc sc && decide (sc ≠ Scalar.unit)
  | .nne => true
  | .seq scs => scs.all wfSc && decide ((seqPayload scs).length < 2 ^ 64)
  | .map ps =>
    ps.all (fun p => wfSc p.2 && decide (p.1.length < 2 ^ 64)) &&
      decide ((mapPayload ps).length < 2 ^ 64)
  | .structVariant name fields =>
    decide (fields.length = 1) &&
      fields.all (fun p => wfSc p.2 && decide (p.1.length < 2 ^ 64)) &&
      decide (name.length < 2 ^ 64) &&
      decide ((mapPayload fields).length < 2 ^ 64) &&
      decide ((frameStr name ++ wrapFrame '\x7d' (mapPayload fields)).length < 2 ^ 64)
  | .smallInt w z => decide (iwLo w ≤ z ∧ z ≤ iwHi w)
  | .tup elems => elems.all wfSc && decide ((seqPayload elems).length < 2 ^ 64)
  | .strukt fields =>
    fields.all (fun p => wfSc p.2 && decide (p.1.length < 2 ^ 64)) &&
      decide ((mapPayload fields).length < 2 ^ 64)
  | .unitVariant name => decide (name.length < 2 ^ 64)
  | .newtypeVariant name sc =>
    wfSc sc && decide (name.length < 2 ^ 64) &&
      decide ((frameStr name ++ encScalar sc).length < 2 ^ 64)
  | .tupleVariant name elems =>
    elems.all wfSc && decide (name.length < 2 ^ 64) &&
      decide ((seqPayload elems).length < 2 ^ 64) &&
      decide ((frameStr name ++ wrapFrame ']' (seqPayload elems)).length < 2 ^ 64)

/-- Compatibility between a fragment value and a requested shape.  An enum
variant value is compatible with an enum shape whose variant table resolves
the value's name to the matching variant kind. -/
def hasShapeF : FValue → Shape → Bool
  | .scalar sc, .sc ssh => scShape sc == ssh
  | .someScalar sc, .opt ssh => scShape sc == ssh
  | .nne, .opt _ => true
  | .seq scs, .seq ssh => scs.all (fun sc => scShape sc == ssh)
  | .map ps, .map vsh => ps.all (fun p => scShape p.2 == vsh)
  | .smallInt w _, .smallInt w' => w == w'
  | .tup elems, .tup ss => decide (elems.map scShape = ss)
  | .strukt fields, .strukt fs =>
    decide (fields.map (fun p => (p.1, scShape p.2)) = fs)
  | .unitVariant name, .enm vs => decide (vLookup name vs = some .unitV)
  | .newtypeVariant name sc, .enm vs =>
    decide (vLookup name vs = some (.newtypeV (scShape sc)))
  | .tupleVariant name elems, .enm vs =>
    decide (vLookup name vs = some (.tupleV (elems.map scShape)))
  | .structVariant name fields, .enm vs =>
    decide (vLookup name vs = some (.structV (fields.map (fun p => (p.1, scShape p.2)))))
  | _, _ => false

/-! ## Decimal rendering lemmas -/

theorem natStrAux_stable (n : Nat) : ∀ f f', n < f → n < f' → natStrAux f n = natStrAux f' n := by
  induction n using Nat.strong_induction_on with
  | _ n ih =>
    intro f f' hf hf'
    obtain ⟨m, rfl⟩ : ∃ m, f = m + 1 := ⟨f - 1, by omega⟩
    obtain ⟨m', rfl⟩ : ∃ m', f' = m' + 1 := ⟨f' - 1, by omega⟩
    simp only [natStrAux]
    by_cases h : n < 10
    · simp [h]
    · simp only [h, if_false]
      rw [ih (n / 10) (by omega) m m' (by omega) (by omega)]

theorem natStr_eq (n : Nat) :
    natStr n = if n < 10 then [digitChar n] else natStr (n / 10) ++ [digitChar (n % 10)] := by
  by_cases h : n < 10
  · rw [if_pos h]
    show natStrAux (n + 1) n = _
    simp only [natStrAux]
    rw [if_pos h]
  · rw [if_neg h]
    show natStrAux (n + 1) n = _
    simp only [natStrAux]
    rw [if_neg h]
    have : natStrAux n (n / 10) = natStr (n / 10) :=
      natStrAux_stable (n / 10) n (n / 10 + 1) (by omega) (by omega)
    rw [this]

theorem is_digit_digitChar (n : Nat) (h : n < 10) : is_digit (digitChar n) = true := by
  interval_cases n <;> decide

theorem digitChar_toNat (n : Nat) (h : n < 10) : (digitChar n).toNat = 48 + n := by
  interval_cases n <;> decide

theorem digitChar_ne_zero (n : Nat) (h1 : 1 ≤ n) (h2 : n < 10) : digitChar n ≠ '0' := by
  interval_cases n <;> decide

theorem natStr_all_digits (n : Nat) : (natStr n).all is_digit = true := by
  induction n using Nat.strong_induction_on with
  | _ n ih =>
    rw [natStr_eq]
    by_cases h : n < 10
    · simp [h, is_digit_digitChar n h]
    · simp only [h, if_false, List.all_append, List.all_cons, List.all_nil]
      rw [ih (n / 10) (by omega)]
      simp [is_digit_digitChar (n % 10) (by omega)]

theorem digitsVal_append (xs : List Char) (c : Char) :
    digitsVal (xs ++ [c]) = 10 * digitsVal xs + (c.toNat - 48) := by
  simp [digitsVal, List.foldl_append]

theorem digitsVal_natStr (n : Nat) : digitsVal (natStr n) = n := by
  induction n using Nat.strong_induction_on with
  | _ n ih =>
    rw [natStr_eq]
    by_cases h : n < 10
    · simp only [h, if_true]
      show digitsVal ([] ++ [digitChar n]) = n
      rw [digitsVal_append, digitChar_toNat n h]
      simp [digitsVal]
    · simp only [h, if_false]
      rw [digitsVal_append, ih (n / 10) (by omega), digitChar_toNat (n % 10) (by omega)]
      omega

theorem natStr_ne_nil (n : Nat) : natStr n ≠ [] := by
  rw [natStr_eq]; split <;> simp

theorem natStr_length_le_self (n : Nat) (h : 1 ≤ n) : (natStr n).length ≤ n := by
  induction n using Nat.strong_induction_on with
  | _ n ih =>
    rw [natStr_eq]
    by_cases h10 : n < 10
    · simp only [h10, if_true, List.length_cons, List.length_nil]
      omega
    · simp only [h10, if_false, List.length_append, List.length_cons, List.length_nil]
      have := ih (n / 10) (by omega) (by omega)
      omega

theorem natStr_length_lt (n : Nat) (h : n < 2 ^ 64) : (natStr n).length < 2 ^ 64 := by
  rcases Nat.eq_zero_or_pos n with h0 | h1
  · subst h0; decide
  · have := natStr_length_le_self n h1
    omega

theorem natStr_head_ne_zero (n : Nat) (h : 1 ≤ n) : (natStr n).head? ≠ some '0' := by
  induction n using Nat.strong_induction_on with
  | _ n ih =>
    rw [natStr_eq]
    by_cases h10 : n < 10
    · simp only [h10, if_true, List.head?_cons]
      intro hc
      exact digitChar_ne_zero n h h10 (Option.some.inj hc)
    · simp only [h10, if_false]
      have hne := natStr_ne_nil (n / 10)
      cases hd : natStr (n / 10) with
      | nil => exact absurd hd hne
      | cons a l =>
        have := ih (n / 10) (by omega) (by omega)
        rw [hd] at this
        simpa using this

theorem all_digits_head_ne_plus (l : List Char) (h : l.all is_digit = true) :
    l.head? ≠ some '+' := by
  cases l with
  | nil => simp
  | cons a l =>
    simp only [List.all_cons, Bool.and_eq_true] at h
    simp only [List.head?_cons, ne_eq, Option.some.injEq]
    intro ha
    rw [ha] at h
    exact absurd h.1 (by decide)

theorem strToUsize_natStr (n : Nat) (h : n < 2 ^ 64) : strToUsize (natStr n) = some n := by
  have hplus := all_digits_head_ne_plus (natStr n) (natStr_all_digits n)
  unfold strToUsize
  rw [if_neg hplus]
  unfold strToUsizeDigits
  rw [if_pos ⟨natStr_ne_nil n, natStr_all_digits n, by rw [digitsVal_natStr]; exact h⟩]
  rw [digitsVal_natStr]

/-! ## List helper lemmas -/

theorem takeWhile_digits_colon (ds rest : List Char) (h : ds.all is_digit = true) :
    (ds ++ ':' :: rest).takeWhile is_digit = ds := by
  induction ds with
  | nil => simp [List.takeWhile_cons]; decide
  | cons c cs ih =>
    simp only [List.all_cons, Bool.and_eq_true] at h
    simp [List.takeWhile_cons, h.1, ih h.2]

theorem drop_digits_colon (ds rest : List Char) :
    (ds ++ ':' :: rest).drop (ds.length + 1) = rest := by
  have h1 : ds ++ ':' :: rest = (ds ++ [':' ]) ++ rest := by simp
  have h2 : ds.length + 1 = (ds ++ [':' ]).length := by simp
  rw [h1, h2, List.drop_left]

theorem findColon_append (ds rest : List Char) (h : ds.all is_digit = true) :
    findColon (ds ++ ':' :: rest) = some ds.length := by
  induction ds with
  | nil => simp [findColon, List.findIdx?_cons]
  | cons c cs ih =>
    simp only [List.all_cons, Bool.and_eq_true] at h
    have hc : ¬(c = ':') := by
      intro hceq
      rw [hceq] at h
      exact absurd h.1 (by decide)
    have ihv : List.findIdx? (fun c => decide (c = ':')) (cs ++ ':' :: rest) = some cs.length :=
      ih h.2
    simp only [findColon, List.cons_append, List.findIdx?_cons, List.findIdx?_succ]
    rw [if_neg (by simpa using hc)]
    rw [ihv]
    simp

theorem startsWithL_self_append (p rest : List Char) : startsWithL p (p ++ rest) = true := by
  induction p with
  | nil => rfl
  | cons a p ih => simp [startsWithL, ih]

theorem startsWithL_iff (p s : List Char) : startsWithL p s = true ↔ ∃ t, s = p ++ t := by
  induction p generalizing s with
  | nil => simp [startsWithL]
  | cons a p ih =>
    cases s with
    | nil => simp [startsWithL]
    | cons b s =>
      simp only [startsWithL, Bool.and_eq_true, decide_eq_true_eq, ih, List.cons_append,
        List.cons.injEq]
      constructor
      · rintro ⟨rfl, t, rfl⟩
        exact ⟨t, rfl, rfl⟩
      · rintro ⟨t, rfl, rfl⟩
        exact ⟨rfl, t, rfl⟩

/-! ## Frame lemmas for the untyped framing primitive -/

theorem parse_tag_frame (L : Nat) (tail : List Char) (hL : L < 2 ^ 64) :
    parse_tag (natStr L ++ ':' :: tail) = .ok (tail, L) := by
  unfold parse_tag
  rw [takeWhile_digits_colon _ _ (natStr_all_digits L), strToUsize_natStr L hL]
  dsimp only
  rw [if_pos (by simp)]
  rw [drop_digits_colon]

theorem take'_append (payload rest : List Char) :
    take' (payload ++ rest) payload.length = .ok (rest, payload) := by
  unfold take'
  rw [if_pos (by simp)]
  rw [List.take_left, List.drop_left]

theorem split_data_frame (payload rest : List Char) (hL : payload.length < 2 ^ 64) :
    split_data (natStr payload.length ++ ':' :: (payload ++ rest)) = .ok (rest, payload) := by
  unfold split_data
  rw [parse_tag_frame _ _ hL]
  exact take'_append payload rest

theorem parse_type_frame (payload : List Char) (t : Char) (rest : List Char)
    (hL : payload.length < 2 ^ 64) :
    parse_type (natStr payload.length ++ ':' :: (payload ++ t :: rest)) =
      (if t = '!' then .ok .Bool
       else if t = ',' then .ok .Str
       else if t = '#' then .ok .Int
       else if t = '^' then .ok .Float
       else if t = '~' then .ok .Null
       else if t = ']' then .ok .List
       else if t = '\x7d' then .ok .Dict
       else .error .UnknownSegmentType) := by
  unfold parse_type
  rw [takeWhile_digits_colon _ _ (natStr_all_digits payload.length),
    strToUsize_natStr _ hL]
  have hdrop : (natStr payload.length ++ ':' :: (payload ++ t :: rest)).drop
      (natStr payload.length).length = ':' :: (payload ++ t :: rest) := List.drop_left _ _
  rw [hdrop]
  dsimp only
  rw [if_pos rfl]
  have hdrop2 : (payload ++ t :: rest).drop payload.length = t :: rest := List.drop_left _ _
  rw [hdrop2]

/-! ## Single-step unfolding lemmas for the fueled untyped parser -/

theorem parseAux_succ_one (n : Nat) (data : List Char) :
    parseAux (n + 1) .one data =
      (match split_data data with
       | .error e => .error e
       | .ok (type_tag_content, content) => parseDispatch n type_tag_content content) := rfl

theorem parseAux_succ_list (n : Nat) (acc : List TNetString) (remain_content : List Char) :
    parseAux (n + 1) (.list acc) remain_content =
      (if remain_content.isEmpty then .ok (remain_content, .list acc)
       else
        match parseAux n .one remain_content with
        | .error e => .error e
        | .ok (remain, v) => parseAux n (.list (acc ++ [v])) remain) := rfl

theorem parseAux_succ_dict (n : Nat) (acc : List (List Char × TNetString))
    (remain_content : List Char) :
    parseAux (n + 1) (.dict acc) remain_content =
      (if remain_content.isEmpty then .ok (remain_content, .dict acc)
       else
        match parseAux n .one remain_content with
        | .error e => .error e
        | .ok (remain1, parsed_key) =>
          match parseAux n .one remain1 with
          | .error e => .error e
          | .ok (remain2, parsed_value) =>
            match parsed_key with
            | .str key => parseAux n (.dict (dictInsert acc key parsed_value)) remain2
            | _ => .error (.err .FoundNonStringKey)) := rfl

/-! ## Sanity theorems mirroring the source test suites -/

/-- Checks from the lib.rs test suite: booleans. -/
theorem sanity_parse_bool :
    parse (("4:true!").toList) = .ok ([], .bool true) ∧
    parse (("4:xyz%!").toList) = .ok ([], .bool true) ∧
    parse (("5:false!").toList) = .ok ([], .bool false) ∧
    parse (("5:aaaaa!").toList) = .ok ([], .bool false) := ⟨rfl, rfl, rfl, rfl⟩

/-- Checks from the lib.rs test suite: a frame followed by more input, lists
and strings. -/
theorem sanity_parse_list :
    parse (("4:true!3:bar,").toList) = .ok (("3:bar,").toList, .bool true) ∧
    parse (("12:3:foo,3:bar,]").toList) =
      .ok ([], .list [.str (("foo").toList), .str (("bar").toList)]) ∧
    parse (("12:3:foo,3:bar,,").toList) = .ok ([], .str (("3:foo,3:bar,").toList)) :=
  ⟨rfl, rfl, rfl⟩

/-- Checks from the lib.rs test suite: null, integers, floats, errors. -/
theorem sanity_parse_scalars :
    parse (("0:~").toList) = .ok ([], .null) ∧
    parse (("0:1~").toList) = .error (.err .UnknownSegmentType) ∧
    parse (("1:a~").toList) = .error (.err .NoneZeroLengthNull) ∧
    parse (("4:1000#").toList) = .ok ([], .int 1000) ∧
    parse (("2:-1#").toList) = .ok ([], .int (-1)) ∧
    parse (("5:,,,,,#").toList) = .error (.err .UnableToParseInt) ∧
    parse (("4:1.00^").toList) = .ok ([], .float (("1.00").toList)) ∧
    parse (("5:,,,,,^").toList) = .error (.err .UnableToParseFloat) :=
  ⟨rfl, rfl, rfl, rfl, rfl, rfl, rfl, rfl⟩

/-- Checks from the lib.rs test suite: dicts and pairs, the framing
primitive. -/
theorem sanity_parse_dict :
    parse (("16:5:hello,5:world,\x7d").toList) =
      .ok ([], .dict [(("hello").toList, .str (("world").toList))]) ∧
    parse (("0:\x7d").toList) = .ok ([], .dict []) ∧
    parse_pair (("5:hello,5:world,").toList) =
      .ok ([], (("hello").toList, .str (("world").toList))) ∧
    parse_pair (("5:hello,").toList) = .error (.err .UnableToParseInt) ∧
    parse_tag (("4:true!").toList) = .ok (("true!").toList, 4) ∧
    split_data (("10:false!").toList) = .error (.err .UnableToTake) ∧
    split_data (("4:true!").toList) = .ok (("!").toList, ("true").toList) :=
  ⟨rfl, rfl, rfl, rfl, rfl, rfl, rfl⟩

/-- Checks from the de.rs test suite: scalars through the typed adapter. -/
theorem sanity_from_str_scalars :
    from_str (.sc .bool) (("4:true!").toList) = .ok (.scalar (.bool true)) ∧
    from_str (.sc .bool) (("5:false!").toList) = .ok (.scalar (.bool false)) ∧
    from_str (.sc .i64) (("19:9223372036854775807#").toList) =
      .ok (.scalar (.i64 9223372036854775807)) ∧
    from_str (.sc .i64) (("20:-9223372036854775808#").toList) =
      .ok (.scalar (.i64 (-9223372036854775808))) ∧
    from_str (.sc .u64) (("20:18446744073709551615#").toList) =
      .ok (.scalar (.u64 18446744073709551615)) ∧
    from_str (.sc .str) (("1:a,").toList) = .ok (.scalar (.str (("a").toList))) ∧
    from_str (.sc .unit) (("0:~").toList) = .ok (.scalar .unit) :=
  ⟨rfl, rfl, rfl, rfl, rfl, rfl, rfl⟩

/-- Checks from the de.rs test suite and section 8 of the design: options,
sequences and maps through the typed adapter. -/
theorem sanity_from_str_compound :
    from_str (.opt .i64) (("1:1#").toList) = .ok (.someScalar (.i64 1)) ∧
    from_str (.opt .i64) (("0:~").toList) = .ok .nne ∧
    from_str (.seq .i64) (("10:2:10#2:10#]").toList) =
      .ok (.seq [.i64 10, .i64 10]) ∧
    from_str (.map .str) (("16:5:hello,5:world,\x7d").toList) =
      .ok (.map [(("hello").toList, .str (("world").toList))]) :=
  ⟨rfl, rfl, rfl, rfl⟩

/-- Checks from the ser.rs test suite: scalars. -/
theorem sanity_to_string_scalars :
    to_string (.scalar (.bool true)) = .ok (("4:true!").toList) ∧
    to_string (.scalar (.bool false)) = .ok (("5:false!").toList) ∧
    to_string (.scalar (.i64 (-1))) = .ok (("2:-1#").toList) ∧
    to_string (.scalar (.i64 0)) = .ok (("1:0#").toList) ∧
    to_string (.scalar (.i64 12340)) = .ok (("5:12340#").toList) ∧
    to_string (.scalar (.str (("3:foo,3:bar,").toList))) =
      .ok (("12:3:foo,3:bar,,").toList) ∧
    to_string .nne = .ok (("0:~").toList) :=
  ⟨rfl, rfl, rfl, rfl, rfl, rfl, rfl⟩

/-- Checks from the ser.rs test suite: sequences, maps and struct
variants. -/
theorem sanity_to_string_compound :
    to_string (.seq [.str (("foo").toList), .str (("bar").toList)]) =
      .ok (("12:3:foo,3:bar,]").toList) ∧
    to_string (.seq [.i64 10, .i64 10]) = .ok (("10:2:10#2:10#]").toList) ∧
    to_string (.map [(("hello").toList, .str (("world").toList))]) =
      .ok (("16:5:hello,5:world,\x7d").toList) ∧
    to_string (.structVariant (("A").toList) [(("b").toList, .i64 10)]) =
      .ok (("16:1:A,9:1:b,2:10#\x7d\x7d").toList) ∧
    to_string (.structVariant (("Struct").toList) [(("a").toList, .i64 1)]) =
      .ok (("20:6:Struct,8:1:a,1:1#\x7d\x7d").toList) :=
  ⟨rfl, rfl, rfl, rfl, rfl⟩

/-- Checks from the de.rs test suite: sub-64-bit integer targets forwarded
through `deserialize_any` (`test_u8`, `test_i8`, `test_i16`, `test_i32`) and
the directly dispatched 32-bit unsigned target (`test_u32`). -/
theorem sanity_from_str_small_ints :
    from_str (.smallInt .u8) (("3:255#").toList) = .ok (.smallInt .u8 255) ∧
    from_str (.smallInt .i8) (("3:127#").toList) = .ok (.smallInt .i8 127) ∧
    from_str (.smallInt .i8) (("4:-128#").toList) = .ok (.smallInt .i8 (-128)) ∧
    from_str (.smallInt .i16) (("6:-32768#").toList) = .ok (.smallInt .i16 (-32768)) ∧
    from_str (.smallInt .i32) (("11:-2147483648#").toList) =
      .ok (.smallInt .i32 (-2147483648)) ∧
    from_str (.sc .u32) (("10:4294967295#").toList) =
      .ok (.scalar (.u32 4294967295)) :=
  ⟨rfl, rfl, rfl, rfl, rfl, rfl⟩

/-- Checks from the de.rs test suite (`test_enum`): the four variant kinds of
the sample enum decode through `deserialize_enum`. -/
theorem sanity_from_str_enum :
    from_str (.enm [(("Unit").toList, .unitV), (("Foo").toList, .unitV),
        (("Newtype").toList, .newtypeV .u32), (("N").toList, .newtypeV .u32),
        (("Tuple").toList, .tupleV [.u32, .u32]),
        (("Struct").toList, .structV [(("a").toList, .u32)])])
      (("4:Unit,").toList) = .ok (.unitVariant (("Unit").toList)) ∧
    from_str (.enm [(("Unit").toList, .unitV), (("Foo").toList, .unitV),
        (("Newtype").toList, .newtypeV .u32), (("N").toList, .newtypeV .u32),
        (("Tuple").toList, .tupleV [.u32, .u32]),
        (("Struct").toList, .structV [(("a").toList, .u32)])])
      (("3:Foo,").toList) = .ok (.unitVariant (("Foo").toList)) ∧
    from_str (.enm [(("Unit").toList, .unitV), (("Foo").toList, .unitV),
        (("Newtype").toList, .newtypeV .u32), (("N").toList, .newtypeV .u32),
        (("Tuple").toList, .tupleV [.u32, .u32]),
        (("Struct").toList, .structV [(("a").toList, .u32)])])
      (("14:7:Newtype,1:1#\x7d").toList) =
        .ok (.newtypeVariant (("Newtype").toList) (.u32 1)) ∧
    from_str (.enm [(("Unit").toList, .unitV), (("Foo").toList, .unitV),
        (("Newtype").toList, .newtypeV .u32), (("N").toList, .newtypeV .u32),
        (("Tuple").toList, .tupleV [.u32, .u32]),
        (("Struct").toList, .structV [(("a").toList, .u32)])])
      (("9:1:N,2:20#\x7d").toList) = .ok (.newtypeVariant (("N").toList) (.u32 20)) ∧
    from_str (.enm [(("Unit").toList, .unitV), (("Foo").toList, .unitV),
        (("Newtype").toList, .newtypeV .u32), (("N").toList, .newtypeV .u32),
        (("Tuple").toList, .tupleV [.u32, .u32]),
        (("Struct").toList, .structV [(("a").toList, .u32)])])
      (("19:5:Tuple,8:1:1#1:2#]\x7d").toList) =
        .ok (.tupleVariant (("Tuple").toList) [.u32 1, .u32 2]) ∧
    from_str (.enm [(("Unit").toList, .unitV), (("Foo").toList, .unitV),
        (("Newtype").toList, .newtypeV .u32), (("N").toList, .newtypeV .u32),
        (("Tuple").toList, .tupleV [.u32, .u32]),
        (("Struct").toList, .structV [(("a").toList, .u32)])])
      (("20:6:Struct,8:1:a,1:1#\x7d\x7d").toList) =
        .ok (.structVariant (("Struct").toList) [(("a").toList, .u32 1)]) :=
  ⟨rfl, rfl, rfl, rfl, rfl, rfl⟩

/-- Checks from the ser.rs test suite: tuples (`test_tuple`,
`test_tuple_struct`), tuple variants (`test_tuple_variant`), flat structs
(`test_struct`), and the unit and newtype variants of `test_enum`. -/
theorem sanity_to_string_new_fragment :
    to_string (.tup [.str (("foo").toList), .str (("bar").toList)]) =
      .ok (("12:3:foo,3:bar,]").toList) ∧
    to_string (.tupleVariant (("T").toList)
        [.str (("foo").toList), .str (("bar").toList)]) =
      .ok (("20:1:T,12:3:foo,3:bar,]\x7d").toList) ∧
    to_string (.strukt [(("int").toList, .u32 10)]) =
      .ok (("11:3:int,2:10#\x7d").toList) ∧
    to_string (.unitVariant (("Unit").toList)) = .ok (("4:Unit,").toList) ∧
    to_string (.newtypeVariant (("Newtype").toList) (.u32 1)) =
      .ok (("14:7:Newtype,1:1#\x7d").toList) ∧
    to_string (.smallInt .i8 (-128)) = .ok (("4:-128#").toList) :=
  ⟨rfl, rfl, rfl, rfl, rfl, rfl⟩

/-! ## Fuel monotonicity of the untyped parser -/

theorem parseAux_mono (f : Nat) :
    ∀ (f' : Nat) (mode : PMode) (data : List Char) (res : List Char × TNetString),
      parseAux f mode data = .ok res → f ≤ f' → parseAux f' mode data = .ok res := by
  induction f with
  | zero =>
    intro f' mode data res h _
    rw [show parseAux 0 mode data = .error .fuel from rfl] at h
    exact Except.noConfusion h
  | succ n ih =>
    intro f' mode data res h hle
    obtain ⟨m, rfl⟩ : ∃ m, f' = m + 1 := ⟨f' - 1, by omega⟩
    have hnm : n ≤ m := by omega
    cases mode with
    | one =>
      rw [parseAux_succ_one] at h ⊢
      cases hsd : split_data data with
      | error e =>
        rw [hsd] at h
        exact Except.noConfusion h
      | ok p =>
        rw [hsd] at h
        obtain ⟨ttc, content⟩ := p
        dsimp only at h ⊢
        unfold parseDispatch at h ⊢
        cases htk : take' ttc 1 with
        | error e =>
          rw [htk] at h
          exact Except.noConfusion h
        | ok q =>
          rw [htk] at h
          obtain ⟨remain, type_tag⟩ := q
          dsimp only at h ⊢
          cases type_tag with
          | nil => exact h
          | cons t ts =>
            cases ts with
            | cons a b => exact h
            | nil =>
              dsimp only at h ⊢
              by_cases h1 : t = '!'
              · rw [if_pos h1] at h ⊢; exact h
              · rw [if_neg h1] at h ⊢
                by_cases h2 : t = ','
                · rw [if_pos h2] at h ⊢; exact h
                · rw [if_neg h2] at h ⊢
                  by_cases h3 : t = '#'
                  · rw [if_pos h3] at h ⊢; exact h
                  · rw [if_neg h3] at h ⊢
                    by_cases h4 : t = '^'
                    · rw [if_pos h4] at h ⊢; exact h
                    · rw [if_neg h4] at h ⊢
                      by_cases h5 : t = '~'
                      · rw [if_pos h5] at h ⊢; exact h
                      · rw [if_neg h5] at h ⊢
                        by_cases h6 : t = ']'
                        · rw [if_pos h6] at h ⊢
                          exact ih m (.list []) content res h hnm
                        · rw [if_neg h6] at h ⊢
                          by_cases h7 : t = '\x7d'
                          · rw [if_pos h7] at h ⊢
                            exact ih m (.dict []) content res h hnm
                          · rw [if_neg h7] at h ⊢; exact h
    | list acc =>
      rw [parseAux_succ_list] at h ⊢
      by_cases he : data.isEmpty = true
      · rw [if_pos he] at h ⊢; exact h
      · rw [if_neg he] at h ⊢
        cases hp : parseAux n .one data with
        | error e =>
          rw [hp] at h
          exact Except.noConfusion h
        | ok pr =>
          rw [hp] at h
          rw [ih m .one data pr hp hnm]
          obtain ⟨remain, v⟩ := pr
          exact ih m _ remain res h hnm
    | dict acc =>
      rw [parseAux_succ_dict] at h ⊢
      by_cases he : data.isEmpty = true
      · rw [if_pos he] at h ⊢; exact h
      · rw [if_neg he] at h ⊢
        cases hp : parseAux n .one data with
        | error e =>
          rw [hp] at h
          exact Except.noConfusion h
        | ok pr =>
          rw [hp] at h
          rw [ih m .one data pr hp hnm]
          obtain ⟨remain1, key⟩ := pr
          dsimp only at h ⊢
          cases hq : parseAux n .one remain1 with
          | error e =>
            rw [hq] at h
            exact Except.noConfusion h
          | ok qr =>
            rw [hq] at h
            rw [ih m .one remain1 qr hq hnm]
            obtain ⟨remain2, val⟩ := qr
            dsimp only at h ⊢
            cases key with
            | str s => exact ih m _ remain2 res h hnm
            | bool b => exact h
            | int z => exact h
            | float p => exact h
            | null => exact h
            | list l => exact h
            | dict d => exact h

/-! ## The typed deserializer never raises UnusedParseData internally -/

theorem parse_bool_no_upd (input : List Char) (r : DErr) :
    parse_bool input = .error r → r ≠ .e .UnusedParseData := by
  intro h
  unfold parse_bool at h
  split at h
  · exact Except.noConfusion h
  · split at h
    · exact Except.noConfusion h
    · injection h with h'
      rw [← h']
      decide

theorem parse_unsigned_no_upd (input : List Char) (r : DErr) :
    parse_unsigned input = .error r → r ≠ .e .UnusedParseData := by
  intro h
  unfold parse_unsigned at h
  split at h
  · injection h with h'
    rw [← h']
    decide
  · split at h
    · injection h with h'
      rw [← h']
      decide
    · split at h
      · split at h
        · exact Except.noConfusion h
        · injection h with h'
          rw [← h']
          decide
      · injection h with h'
        rw [← h']
        decide

theorem parse_signed_no_upd (input : List Char) (r : DErr) :
    parse_signed input = .error r → r ≠ .e .UnusedParseData := by
  intro h
  unfold parse_signed at h
  split at h
  · injection h with h'
    rw [← h']
    decide
  · split at h
    · injection h with h'
      rw [← h']
      decide
    · split at h
      · split at h
        · exact Except.noConfusion h
        · injection h with h'
          rw [← h']
          decide
      · injection h with h'
        rw [← h']
        decide

theorem parse_string_no_upd (input : List Char) (r : DErr) :
    parse_string input = .error r → r ≠ .e .UnusedParseData := by
  intro h
  unfold parse_string at h
  split at h
  · split at h
    · injection h with h'
      rw [← h']
      decide
    · split at h
      · injection h with h'
        rw [← h']
        decide
      · split at h
        · split at h
          · exact Except.noConfusion h
          · injection h with h'
            rw [← h']
            decide
        · injection h with h'
          rw [← h']
          decide
  · injection h with h'
    rw [← h']
    decide

theorem decodeScalar_no_upd (ssh : SShape) (input : List Char) (r : DErr) :
    decodeScalar ssh input = .error r → r ≠ .e .UnusedParseData := by
  intro h
  cases ssh with
  | bool =>
    simp only [decodeScalar] at h
    split at h
    · exact Except.noConfusion h
    · rename_i heq
      injection h with h'
      rw [← h']
      exact parse_bool_no_upd input _ heq
  | i64 =>
    simp only [decodeScalar] at h
    split at h
    · exact Except.noConfusion h
    · rename_i heq
      injection h with h'
      rw [← h']
      exact parse_signed_no_upd input _ heq
  | u64 =>
    simp only [decodeScalar] at h
    split at h
    · exact Except.noConfusion h
    · rename_i heq
      injection h with h'
      rw [← h']
      exact parse_unsigned_no_upd input _ heq
  | u32 =>
    simp only [decodeScalar] at h
    split at h
    · exact Except.noConfusion h
    · rename_i heq
      injection h with h'
      rw [← h']
      exact parse_unsigned_no_upd input _ heq
  | str =>
    simp only [decodeScalar] at h
    split at h
    · exact Except.noConfusion h
    · rename_i heq
      injection h with h'
      rw [← h']
      exact parse_string_no_upd input _ heq
  | unit =>
    simp only [decodeScalar] at h
    split at h
    · exact Except.noConfusion h
    · injection h with h'
      rw [← h']
      decide

theorem seqLoopF_no_upd (f : Nat) :
    ∀ (ssh : SShape) (cur : List Char) (acc : List Scalar) (r : DErr),
      seqLoopF f ssh cur acc = .error r → r ≠ .e .UnusedParseData := by
  induction f with
  | zero =>
    intro ssh cur acc r h
    unfold seqLoopF at h
    injection h with h'
    rw [← h']
    decide
  | succ n ih =>
    intro ssh cur acc r h
    unfold seqLoopF at h
    split at h
    · exact Except.noConfusion h
    · split at h
      · rename_i heq
        injection h with h'
        rw [← h']
        exact decodeScalar_no_upd ssh cur _ heq
      · exact ih ssh _ _ r h

theorem mapLoopF_no_upd (f : Nat) :
    ∀ (vsh : SShape) (cur : List Char) (acc : List (List Char × Scalar)) (r : DErr),
      mapLoopF f vsh cur acc = .error r → r ≠ .e .UnusedParseData := by
  induction f with
  | zero =>
    intro vsh cur acc r h
    unfold mapLoopF at h
    injection h with h'
    rw [← h']
    decide
  | succ n ih =>
    intro vsh cur acc r h
    unfold mapLoopF at h
    split at h
    · exact Except.noConfusion h
    · split at h
      · rename_i heq
        injection h with h'
        rw [← h']
        exact parse_string_no_upd cur _ heq
      · split at h
        · rename_i heq
          injection h with h'
          rw [← h']
          exact decodeScalar_no_upd vsh _ _ heq
        · exact ih vsh _ _ r h

theorem e_message_ne_upd (m : List Char) :
    DErr.e (.Message m) ≠ DErr.e .UnusedParseData := by
  intro hc
  injection hc with hc2
  exact Error.noConfusion hc2

theorem tupElemsF_no_upd (ss : List SShape) :
    ∀ (cur : List Char) (r : DErr),
      tupElemsF ss cur = .error r → r ≠ .e .UnusedParseData := by
  induction ss with
  | nil =>
    intro cur r h
    unfold tupElemsF at h
    exact Except.noConfusion h
  | cons ssh rest ih =>
    intro cur r h
    unfold tupElemsF at h
    split at h
    · injection h with h'
      rw [← h']
      exact e_message_ne_upd _
    · split at h
      · rename_i heq
        injection h with h'
        rw [← h']
        exact decodeScalar_no_upd ssh cur _ heq
      · split at h
        · rename_i heq
          injection h with h'
          rw [← h']
          exact ih _ _ heq
        · exact Except.noConfusion h

theorem struktFieldsF_no_upd (fs : List (List Char × SShape)) :
    ∀ (cur : List Char) (r : DErr),
      struktFieldsF fs cur = .error r → r ≠ .e .UnusedParseData := by
  induction fs with
  | nil =>
    intro cur r h
    unfold struktFieldsF at h
    exact Except.noConfusion h
  | cons p rest ih =>
    intro cur r h
    obtain ⟨fname, ssh⟩ := p
    unfold struktFieldsF at h
    split at h
    · injection h with h'
      rw [← h']
      exact e_message_ne_upd _
    · split at h
      · rename_i heq
        injection h with h'
        rw [← h']
        exact parse_string_no_upd cur _ heq
      · split at h
        · split at h
          · rename_i heq
            injection h with h'
            rw [← h']
            exact decodeScalar_no_upd ssh _ _ heq
          · split at h
            · rename_i heq
              injection h with h'
              rw [← h']
              exact ih _ _ heq
            · exact Except.noConfusion h
        · injection h with h'
          rw [← h']
          exact e_message_ne_upd _

theorem anyRejectTag_no_upd (c : Char) (input : List Char) :
    anyRejectTag c input ≠ DErr.e .UnusedParseData := by
  unfold anyRejectTag
  split
  · split
    · exact e_message_ne_upd _
    · decide
  · split
    · split
      · exact e_message_ne_upd _
      · rename_i heq
        exact parse_bool_no_upd input _ heq
    · split
      · split
        · exact e_message_ne_upd _
        · rename_i heq
          exact parse_string_no_upd input _ heq
      · split
        · decide
        · split
          · split
            · exact e_message_ne_upd _
            · rename_i heq
              exact parse_signed_no_upd input _ heq
          · split
            · split
              · split
                · decide
                · exact e_message_ne_upd _
              · decide
            · split
              · split
                · split
                  · decide
                  · exact e_message_ne_upd _
                · decide
              · decide

theorem decodeTop_no_upd (sh : Shape) (input : List Char) (r : DErr) :
    decodeTop sh input = .error r → r ≠ .e .UnusedParseData := by
  intro h
  cases sh with
  | sc ssh =>
    simp only [decodeTop] at h
    split at h
    · exact Except.noConfusion h
    · rename_i heq
      injection h with h'
      rw [← h']
      exact decodeScalar_no_upd ssh input _ heq
  | f32 =>
    simp only [decodeTop] at h
    injection h with h'
    rw [← h']
    decide
  | f64 =>
    simp only [decodeTop] at h
    injection h with h'
    rw [← h']
    decide
  | opt ssh =>
    simp only [decodeTop] at h
    split at h
    · exact Except.noConfusion h
    · split at h
      · exact Except.noConfusion h
      · rename_i heq
        injection h with h'
        rw [← h']
        exact decodeScalar_no_upd ssh input _ heq
  | seq ssh =>
    simp only [decodeTop] at h
    split at h
    · split at h
      · injection h with h'
        rw [← h']
        decide
      · split at h
        · exact Except.noConfusion h
        · rename_i heq
          injection h with h'
          rw [← h']
          exact seqLoopF_no_upd _ ssh _ _ _ heq
    · injection h with h'
      rw [← h']
      decide
  | map vsh =>
    simp only [decodeTop] at h
    split at h
    · split at h
      · injection h with h'
        rw [← h']
        decide
      · split at h
        · exact Except.noConfusion h
        · rename_i heq
          injection h with h'
          rw [← h']
          exact mapLoopF_no_upd _ vsh _ _ _ heq
    · injection h with h'
      rw [← h']
      decide
  | smallInt w =>
    simp only [decodeTop] at h
    repeat' split at h
    all_goals
      first
        | exact Except.noConfusion h
        | (injection h with h'
           rw [← h']
           first
             | decide
             | exact e_message_ne_upd _
             | exact anyRejectTag_no_upd _ _
             | exact parse_signed_no_upd _ _ (by assumption))
  | tup ss =>
    simp only [decodeTop] at h
    repeat' split at h
    all_goals
      first
        | exact Except.noConfusion h
        | (injection h with h'
           rw [← h']
           first
             | decide
             | exact anyRejectTag_no_upd _ _
             | exact tupElemsF_no_upd _ _ _ (by assumption))
  | strukt fs =>
    simp only [decodeTop] at h
    repeat' split at h
    all_goals
      first
        | exact Except.noConfusion h
        | (injection h with h'
           rw [← h']
           first
             | decide
             | exact anyRejectTag_no_upd _ _
             | exact struktFieldsF_no_upd _ _ _ (by assumption))
  | enm vs =>
    simp only [decodeTop] at h
    repeat' split at h
    all_goals
      first
        | exact Except.noConfusion h
        | (injection h with h'
           rw [← h']
           first
             | decide
             | exact e_message_ne_upd _
             | exact parse_string_no_upd _ _ (by assumption)
             | exact decodeScalar_no_upd _ _ _ (by assumption)
             | exact tupElemsF_no_upd _ _ _ (by assumption)
             | exact struktFieldsF_no_upd _ _ _ (by assumption))

/-! ## Serializer output for the round-trip fragment -/

/-- The expected wire text of a fragment value; `to_string` produces exactly
this text on every well-formed value (`to_string_encF`).  The struct-variant
form is the one the serializer emits for a single field — the only arity in
the well-formed fragment. -/
def encF : FValue → List Char
  | .scalar sc => encScalar sc
  | .someScalar sc => encScalar sc
  | .nne => ("0:~").toList
  | .seq scs => wrapFrame ']' (seqPayload scs)
  | .map ps => wrapFrame '\x7d' (mapPayload ps)
  | .structVariant name fields =>
    wrapFrame '\x7d' (frameStr name ++ wrapFrame '\x7d' (mapPayload fields))
  | .smallInt _ z => wrapFrame '#' (intStr z)
  | .tup elems => wrapFrame ']' (seqPayload elems)
  | .strukt fields => wrapFrame '\x7d' (mapPayload fields)
  | .unitVariant name => frameStr name
  | .newtypeVariant name sc => wrapFrame '\x7d' (frameStr name ++ encScalar sc)
  | .tupleVariant name elems =>
    wrapFrame '\x7d' (frameStr name ++ wrapFrame ']' (seqPayload elems))

theorem seqPayload_cons (sc : Scalar) (scs : List Scalar) :
    seqPayload (sc :: scs) = encScalar sc ++ seqPayload scs := by
  simp [seqPayload]

theorem mapPayload_cons (k : List Char) (sc : Scalar) (ps : List (List Char × Scalar)) :
    mapPayload ((k, sc) :: ps) = (frameStr k ++ encScalar sc) ++ mapPayload ps := by
  simp [mapPayload]

theorem appendScalars_top (scs : List Scalar) :
    ∀ (b : List Char) (st : List (List Char)),
      appendScalars scs (b :: st) = (b ++ seqPayload scs) :: st := by
  induction scs with
  | nil =>
    intro b st
    simp [appendScalars, seqPayload]
  | cons sc scs ih =>
    intro b st
    rw [seqPayload_cons]
    show appendScalars scs ((b ++ encScalar sc) :: st) = _
    rw [ih]
    simp

theorem appendPairs_top (ps : List (List Char × Scalar)) :
    ∀ (b : List Char) (st : List (List Char)),
      appendPairs ps (b :: st) = (b ++ mapPayload ps) :: st := by
  induction ps with
  | nil =>
    intro b st
    simp [appendPairs, mapPayload]
  | cons p ps ih =>
    intro b st
    obtain ⟨k, sc⟩ := p
    rw [mapPayload_cons]
    show appendPairs ps ((b ++ frameStr k ++ encScalar sc) :: st) = _
    rw [ih]
    simp

/-- The staged serializer produces exactly the expected wire text on the
round-tripping fragment. -/
theorem to_string_encF (v : FValue) (hwf : wfF v = true) : to_string v = .ok (encF v) := by
  cases v with
  | scalar sc => rfl
  | someScalar sc => rfl
  | nne => rfl
  | seq scs =>
    show to_string (.seq scs) = .ok (wrapFrame ']' (seqPayload scs))
    unfold to_string serFrag pushBuf
    dsimp only
    rw [appendScalars_top]
    simp [seqEnd, addToOutput]
  | map ps =>
    show to_string (.map ps) = .ok (wrapFrame '\x7d' (mapPayload ps))
    unfold to_string serFrag pushBuf
    dsimp only
    rw [appendPairs_top]
    simp [mapEnd, addToOutput]
  | structVariant name fields =>
    have h1 : fields.length = 1 := by
      have hb := hwf
      simp only [wfF, Bool.and_eq_true, decide_eq_true_eq] at hb
      exact hb.1.1.1.1
    cases fields with
    | nil => simp at h1
    | cons p fs =>
      cases fs with
      | cons q fs' => simp at h1
      | nil =>
        obtain ⟨k, sc⟩ := p
        have hm : mapPayload [(k, sc)] = frameStr k ++ encScalar sc := by
          simp [mapPayload]
        show to_string (.structVariant name [(k, sc)]) =
          .ok (wrapFrame '\x7d' (frameStr name ++ wrapFrame '\x7d' (mapPayload [(k, sc)])))
        rw [hm]
        rfl
  | smallInt w z => rfl
  | tup elems =>
    show to_string (.tup elems) = .ok (wrapFrame ']' (seqPayload elems))
    unfold to_string serFrag pushBuf
    dsimp only
    rw [appendScalars_top]
    simp [seqEnd, addToOutput]
  | strukt fields =>
    show to_string (.strukt fields) = .ok (wrapFrame '\x7d' (mapPayload fields))
    unfold to_string serFrag pushBuf
    dsimp only
    rw [appendPairs_top]
    simp [mapEnd, addToOutput]
  | unitVariant name => rfl
  | newtypeVariant name sc => rfl
  | tupleVariant name elems =>
    show to_string (.tupleVariant name elems) =
      .ok (wrapFrame '\x7d' (frameStr name ++ wrapFrame ']' (seqPayload elems)))
    unfold to_string serFrag pushBuf
    dsimp only
    rw [show addToOutput [[]] (frameStr name) = [frameStr name] from rfl]
    rw [appendScalars_top]
    simp [seqEnd, wrapTop, addToOutput]

/-! ## Typed scalar decoding of encoded frames -/

theorem drop_append_cons (ds : List Char) (c : Char) (rest : List Char) :
    (ds ++ c :: rest).drop (ds.length + 1) = rest := by
  have h1 : ds ++ c :: rest = (ds ++ [c]) ++ rest := by simp
  have h2 : ds.length + 1 = (ds ++ [c]).length := by simp
  rw [h1, h2, List.drop_left]

theorem frame_shape (b : List Char) (tag : Char) (rest : List Char) :
    wrapFrame tag b ++ rest = natStr b.length ++ ':' :: (b ++ tag :: rest) := by
  simp [wrapFrame]

theorem frame_findColon (b : List Char) (tag : Char) (rest : List Char) :
    findColon (natStr b.length ++ ':' :: (b ++ tag :: rest)) =
      some (natStr b.length).length :=
  findColon_append _ _ (natStr_all_digits _)

theorem frame_len_colon (b : List Char) (tag : Char) (rest : List Char)
    (hL : b.length < 2 ^ 64) :
    strToUsize ((natStr b.length ++ ':' :: (b ++ tag :: rest)).take
      (natStr b.length).length) = some b.length := by
  rw [List.take_left]
  exact strToUsize_natStr _ hL

theorem frame_payload_slice (b : List Char) (tag : Char) (rest : List Char) :
    ((natStr b.length ++ ':' :: (b ++ tag :: rest)).drop
      ((natStr b.length).length + 1)).take b.length = b := by
  rw [drop_append_cons]
  have : b ++ tag :: rest = b ++ (tag :: rest) := rfl
  rw [this, List.take_left]

theorem frame_cursor (b : List Char) (tag : Char) (rest : List Char) :
    (natStr b.length ++ ':' :: (b ++ tag :: rest)).drop
      ((natStr b.length).length + 1 + b.length + 1) = rest := by
  have he : (natStr b.length).length + 1 + b.length + 1 =
      ((natStr b.length).length + 1) + (b.length + 1) := by omega
  rw [he, ← List.drop_drop, drop_append_cons, drop_append_cons]

theorem frame_length_ge (b : List Char) (tag : Char) (rest : List Char) :
    (natStr b.length).length + 1 + b.length + 1 ≤
      (natStr b.length ++ ':' :: (b ++ tag :: rest)).length := by
  simp only [List.length_append, List.length_cons]
  omega

theorem parse_unsigned_frame (n : Nat) (rest : List Char) (h : n < 2 ^ 64) :
    parse_unsigned (wrapFrame '#' (natStr n) ++ rest) = .ok (n, rest) := by
  rw [frame_shape]
  unfold parse_unsigned
  rw [frame_findColon]
  dsimp only
  rw [frame_len_colon _ _ _ (natStr_length_lt n h)]
  dsimp only
  rw [if_pos (by have := frame_length_ge (natStr n) '#' rest; omega)]
  rw [if_pos (frame_length_ge (natStr n) '#' rest)]
  rw [frame_payload_slice, frame_cursor, digitsVal_natStr]

theorem intStr_ne_nil (z : Int) : intStr z ≠ [] := by
  unfold intStr
  split
  · simp
  · exact natStr_ne_nil _

theorem all_digits_head_ne (l : List Char) (h : l.all is_digit = true) (c : Char)
    (hc : is_digit c = false) : l.head? ≠ some c := by
  cases l with
  | nil => simp
  | cons a t =>
    simp only [List.all_cons, Bool.and_eq_true] at h
    simp only [List.head?_cons, ne_eq, Option.some.injEq]
    intro ha
    rw [ha] at h
    rw [hc] at h
    exact Bool.noConfusion h.1

theorem foldl_cast_digits (ds : List Char) :
    ∀ (a : Nat), ds.all is_digit = true →
      List.foldl (fun (x : Int) c => 10 * x + ((c.toNat : Int) - 48)) (a : Int) ds =
        ((List.foldl (fun x c => 10 * x + (c.toNat - 48)) a ds : Nat) : Int) := by
  induction ds with
  | nil => intro a _; rfl
  | cons c t ih =>
    intro a h
    simp only [List.all_cons, Bool.and_eq_true] at h
    have hc : 48 ≤ c.toNat := by
      have h1 := h.1
      unfold is_digit at h1
      simp only [Bool.and_eq_true, decide_eq_true_eq] at h1
      exact h1.1
    simp only [List.foldl_cons]
    have hstep : 10 * (a : Int) + ((c.toNat : Int) - 48) =
        ((10 * a + (c.toNat - 48) : Nat) : Int) := by
      push_cast [Nat.cast_sub hc]
      ring
    rw [hstep]
    exact ih _ h.2

theorem foldl_neg_digits (ds : List Char) :
    ∀ (a : Int),
      List.foldl (fun (x : Int) c => 10 * x + -((c.toNat : Int) - 48)) (-a) ds =
        -(List.foldl (fun (x : Int) c => 10 * x + ((c.toNat : Int) - 48)) a ds) := by
  induction ds with
  | nil => intro a; rfl
  | cons c t ih =>
    intro a
    simp only [List.foldl_cons]
    have hstep : 10 * (-a) + -((c.toNat : Int) - 48) =
        -(10 * a + ((c.toNat : Int) - 48)) := by ring
    rw [hstep]
    exact ih _

theorem signedFold_false_eq (ds : List Char) (h : ds.all is_digit = true) :
    signedFold false ds = (digitsVal ds : Int) := by
  unfold signedFold
  have hfn : (fun (a : Int) (c : Char) => 10 * a +
      (if (false : Bool) then -((c.toNat : Int) - 48) else (c.toNat : Int) - 48)) =
      fun (a : Int) (c : Char) => 10 * a + ((c.toNat : Int) - 48) := by
    funext a c
    simp
  rw [hfn]
  have := foldl_cast_digits ds 0 h
  simp only [Nat.cast_zero] at this
  rw [this]
  rfl

theorem signedFold_true_eq (ds : List Char) (h : ds.all is_digit = true) :
    signedFold true ds = -(digitsVal ds : Int) := by
  unfold signedFold
  have hfn : (fun (a : Int) (c : Char) => 10 * a +
      (if (true : Bool) then -((c.toNat : Int) - 48) else (c.toNat : Int) - 48)) =
      fun (a : Int) (c : Char) => 10 * a + -((c.toNat : Int) - 48) := by
    funext a c
    simp
  rw [hfn]
  have hneg := foldl_neg_digits ds 0
  simp only [neg_zero] at hneg
  rw [hneg]
  have := foldl_cast_digits ds 0 h
  simp only [Nat.cast_zero] at this
  rw [this]
  rfl

theorem signedVal_natStr (n : Nat) : signedVal (natStr n) = (n : Int) := by
  unfold signedVal
  rw [if_neg (all_digits_head_ne _ (natStr_all_digits n) '-' (by decide))]
  rw [signedFold_false_eq _ (natStr_all_digits n), digitsVal_natStr]

theorem signedVal_intStr (z : Int) (h1 : -(2 ^ 63) ≤ z) (h2 : z < 2 ^ 63) :
    signedVal (intStr z) = z := by
  by_cases hz : z < 0
  · have hi : intStr z = '-' :: natStr z.natAbs := by
      unfold intStr
      rw [if_pos hz]
    rw [hi]
    unfold signedVal
    rw [if_pos (show ('-' :: natStr z.natAbs).head? = some '-' from rfl)]
    show signedFold true (natStr z.natAbs) = z
    rw [signedFold_true_eq _ (natStr_all_digits _), digitsVal_natStr]
    omega
  · have hi : intStr z = natStr z.toNat := by
      unfold intStr
      rw [if_neg hz]
    rw [hi, signedVal_natStr]
    omega

theorem parse_signed_frame (z : Int) (rest : List Char) (h1 : -(2 ^ 63) ≤ z)
    (h2 : z < 2 ^ 63) :
    parse_signed (wrapFrame '#' (intStr z) ++ rest) = .ok (z, rest) := by
  have hlen : (intStr z).length < 2 ^ 64 := by
    by_cases hz : z < 0
    · have hi : intStr z = '-' :: natStr z.natAbs := by
        unfold intStr
        rw [if_pos hz]
      rw [hi]
      have := natStr_length_le_self z.natAbs (by omega)
      simp only [List.length_cons]
      omega
    · have hi : intStr z = natStr z.toNat := by
        unfold intStr
        rw [if_neg hz]
      rw [hi]
      exact natStr_length_lt z.toNat (by omega)
  rw [frame_shape]
  unfold parse_signed
  rw [frame_findColon]
  dsimp only
  rw [frame_len_colon _ _ _ hlen]
  dsimp only
  rw [if_pos (by have := frame_length_ge (intStr z) '#' rest; omega)]
  rw [if_pos (frame_length_ge (intStr z) '#' rest)]
  rw [frame_payload_slice, frame_cursor, signedVal_intStr z h1 h2]

theorem parse_type_frame_str (s : List Char) (rest : List Char) (hL : s.length < 2 ^ 64) :
    parse_type (natStr s.length ++ ':' :: (s ++ ',' :: rest)) = .ok .Str := by
  rw [parse_type_frame _ _ _ hL]
  rw [if_neg (by decide), if_pos rfl]

theorem parse_string_frame (s : List Char) (rest : List Char) (hL : s.length < 2 ^ 64) :
    parse_string (wrapFrame ',' s ++ rest) = .ok (s, rest) := by
  rw [frame_shape]
  unfold parse_string
  rw [parse_type_frame_str s rest hL]
  dsimp only
  rw [frame_findColon]
  dsimp only
  rw [frame_len_colon _ _ _ hL]
  dsimp only
  have he1 : s.length + ((natStr s.length).length + 1) =
      (natStr s.length).length + 1 + s.length := by omega
  rw [he1]
  rw [if_pos (by have := frame_length_ge s ',' rest; omega)]
  rw [if_pos (frame_length_ge s ',' rest)]
  rw [frame_payload_slice, frame_cursor]

theorem parse_bool_frame (b : Bool) (rest : List Char) :
    parse_bool (encScalar (.bool b) ++ rest) = .ok (b, rest) := by
  cases b with
  | true =>
    show parse_bool (("4:true!").toList ++ rest) = _
    unfold parse_bool
    rw [if_pos (startsWithL_self_append _ _)]
    rfl
  | false =>
    show parse_bool (("5:false!").toList ++ rest) = _
    unfold parse_bool
    rw [if_neg (by rw [show startsWithL (("4:true!").toList)
      (("5:false!").toList ++ rest) = false from rfl]; simp)]
    rw [if_pos (startsWithL_self_append _ _)]
    rfl

theorem decodeScalar_frame (sc : Scalar) (rest : List Char) (hwf : wfSc sc = true) :
    decodeScalar (scShape sc) (encScalar sc ++ rest) = .ok (sc, rest) := by
  cases sc with
  | bool b =>
    show decodeScalar .bool _ = _
    simp only [decodeScalar]
    rw [parse_bool_frame]
  | i64 z =>
    show decodeScalar .i64 _ = _
    simp only [decodeScalar]
    unfold wfSc at hwf
    simp only [decide_eq_true_eq] at hwf
    rw [show encScalar (.i64 z) = wrapFrame '#' (intStr z) from rfl]
    rw [parse_signed_frame z rest hwf.1 hwf.2]
  | u64 n =>
    show decodeScalar .u64 _ = _
    simp only [decodeScalar]
    unfold wfSc at hwf
    simp only [decide_eq_true_eq] at hwf
    rw [show encScalar (.u64 n) = wrapFrame '#' (natStr n) from rfl]
    rw [parse_unsigned_frame n rest hwf]
  | u32 n =>
    show decodeScalar .u32 _ = _
    simp only [decodeScalar]
    unfold wfSc at hwf
    simp only [decide_eq_true_eq] at hwf
    rw [show encScalar (.u32 n) = wrapFrame '#' (natStr n) from rfl]
    rw [parse_unsigned_frame n rest (by omega)]
  | str s =>
    show decodeScalar .str _ = _
    simp only [decodeScalar]
    unfold wfSc at hwf
    simp only [decide_eq_true_eq] at hwf
    rw [show encScalar (.str s) = wrapFrame ',' s from rfl]
    rw [parse_string_frame s rest hwf]
  | unit =>
    show decodeScalar .unit _ = _
    simp only [decodeScalar]
    rw [show encScalar Scalar.unit = ("0:~").toList from rfl]
    rw [if_pos (startsWithL_self_append _ _)]
    rfl

/-! ## Round-trip assembly -/

theorem from_str_of_decodeTop (sh : Shape) (s : List Char) (v : FValue)
    (h : decodeTop sh s = .ok (v, [])) : from_str sh s = .ok v := by
  unfold from_str
  rw [h]
  dsimp only
  rw [if_pos (by decide)]

theorem encScalar_ne_nil (sc : Scalar) : encScalar sc ≠ [] := by
  cases sc with
  | bool b => cases b <;> simp [encScalar]
  | i64 z => simp [encScalar, wrapFrame]
  | u64 n => simp [encScalar, wrapFrame]
  | u32 n => simp [encScalar, wrapFrame]
  | str s => simp [encScalar, wrapFrame]
  | unit => simp [encScalar]

theorem isEmpty_append_false (l l' : List Char) (h : l ≠ []) : (l ++ l').isEmpty = false := by
  cases l with
  | nil => exact absurd rfl h
  | cons a t => rfl

theorem startsWith_zero_natStr_false (L : Nat) (h : 1 ≤ L) (tail : List Char) :
    startsWithL (("0:~").toList) (natStr L ++ tail) = false := by
  cases hns : natStr L with
  | nil => exact absurd hns (natStr_ne_nil L)
  | cons c cs =>
    have hc : c ≠ '0' := by
      have hh := natStr_head_ne_zero L h
      rw [hns] at hh
      simpa using hh
    show startsWithL ('0' :: [':', '~']) (c :: (cs ++ tail)) = false
    rw [show startsWithL ('0' :: [':', '~']) (c :: (cs ++ tail)) =
      (decide ('0' = c) && startsWithL [':', '~'] (cs ++ tail)) from rfl]
    rw [decide_eq_false (Ne.symm hc)]
    simp

theorem enc_not_null_head (sc : Scalar) (rest : List Char) (hne : sc ≠ Scalar.unit) :
    startsWithL (("0:~").toList) (encScalar sc ++ rest) = false := by
  cases sc with
  | bool b => cases b <;> rfl
  | i64 z =>
    rw [show encScalar (.i64 z) = wrapFrame '#' (intStr z) from rfl, frame_shape]
    exact startsWith_zero_natStr_false _ (List.length_pos.mpr (intStr_ne_nil z)) _
  | u64 n =>
    rw [show encScalar (.u64 n) = wrapFrame '#' (natStr n) from rfl, frame_shape]
    exact startsWith_zero_natStr_false _ (List.length_pos.mpr (natStr_ne_nil n)) _
  | u32 n =>
    rw [show encScalar (.u32 n) = wrapFrame '#' (natStr n) from rfl, frame_shape]
    exact startsWith_zero_natStr_false _ (List.length_pos.mpr (natStr_ne_nil n)) _
  | str s =>
    cases s with
    | nil => rfl
    | cons a t =>
      rw [show encScalar (.str (a :: t)) = wrapFrame ',' (a :: t) from rfl, frame_shape]
      exact startsWith_zero_natStr_false _ (by simp) _
  | unit => exact absurd rfl hne

theorem seqLoopF_encoded (ssh : SShape) (scs : List Scalar) :
    ∀ (f : Nat) (acc : List Scalar),
      scs.all wfSc = true →
      scs.all (fun sc => scShape sc == ssh) = true →
      (seqPayload scs).length + 1 ≤ f →
      seqLoopF f ssh (seqPayload scs) acc = .ok (acc ++ scs, []) := by
  induction scs with
  | nil =>
    intro f acc _ _ hf
    obtain ⟨g, rfl⟩ : ∃ g, f = g + 1 := ⟨f - 1, by omega⟩
    rw [show seqPayload [] = [] from rfl]
    unfold seqLoopF
    rw [if_pos (show (([] : List Char)).isEmpty = true from rfl)]
    simp
  | cons sc scs ih =>
    intro f acc hwf hsh hf
    simp only [List.all_cons, Bool.and_eq_true] at hwf hsh
    have hshape : scShape sc = ssh := by simpa using hsh.1
    subst hshape
    rw [seqPayload_cons] at hf ⊢
    obtain ⟨g, rfl⟩ : ∃ g, f = g + 1 := ⟨f - 1, by omega⟩
    unfold seqLoopF
    rw [if_neg (by rw [isEmpty_append_false _ _ (encScalar_ne_nil sc)]; simp)]
    rw [decodeScalar_frame sc _ hwf.1]
    dsimp only
    have hlen : 1 ≤ (encScalar sc).length := List.length_pos.mpr (encScalar_ne_nil sc)
    have hrec := ih g (acc ++ [sc]) hwf.2 hsh.2
      (by simp only [List.length_append] at hf ⊢; omega)
    rw [hrec]
    simp

theorem mapLoopF_encoded (vsh : SShape) (ps : List (List Char × Scalar)) :
    ∀ (f : Nat) (acc : List (List Char × Scalar)),
      ps.all (fun p => wfSc p.2 && decide (p.1.length < 2 ^ 64)) = true →
      ps.all (fun p => scShape p.2 == vsh) = true →
      (mapPayload ps).length + 1 ≤ f →
      mapLoopF f vsh (mapPayload ps) acc = .ok (acc ++ ps, []) := by
  induction ps with
  | nil =>
    intro f acc _ _ hf
    obtain ⟨g, rfl⟩ : ∃ g, f = g + 1 := ⟨f - 1, by omega⟩
    rw [show mapPayload [] = [] from rfl]
    unfold mapLoopF
    rw [if_pos (show (([] : List Char)).isEmpty = true from rfl)]
    simp
  | cons p ps ih =>
    intro f acc hwf hsh hf
    obtain ⟨k, sc⟩ := p
    simp only [List.all_cons, Bool.and_eq_true] at hwf hsh
    have hshape : scShape sc = vsh := by simpa using hsh.1
    subst hshape
    have hk : k.length < 2 ^ 64 := by
      have := hwf.1.2
      simpa using this
    rw [mapPayload_cons] at hf ⊢
    obtain ⟨g, rfl⟩ : ∃ g, f = g + 1 := ⟨f - 1, by omega⟩
    unfold mapLoopF
    rw [List.append_assoc]
    rw [if_neg (by
      rw [isEmpty_append_false _ _ (by simp [frameStr, wrapFrame])]
      simp)]
    rw [show frameStr k = wrapFrame ',' k from rfl, parse_string_frame k _ hk]
    dsimp only
    rw [decodeScalar_frame sc _ hwf.1.1]
    dsimp only
    have hlen1 : 1 ≤ (frameStr k).length :=
      List.length_pos.mpr (by simp [frameStr, wrapFrame])
    have hlen2 : 1 ≤ (encScalar sc).length := List.length_pos.mpr (encScalar_ne_nil sc)
    have hrec := ih g (acc ++ [(k, sc)]) hwf.2 hsh.2
      (by simp only [List.length_append] at hf ⊢; omega)
    rw [hrec]
    simp

theorem narrow_wrapFrame (payload : List Char) (tag : Char) :
    narrowFrame (wrapFrame tag payload) ((natStr payload.length).length) = payload := by
  unfold narrowFrame wrapFrame
  have hassoc : natStr payload.length ++ ':' :: (payload ++ [tag]) =
      (natStr payload.length ++ ':' :: payload) ++ [tag] := by simp
  rw [hassoc]
  have hlen : ((natStr payload.length ++ ':' :: payload) ++ [tag]).length - 1 =
      (natStr payload.length ++ ':' :: payload).length := by
    simp only [List.length_append, List.length_cons, List.length_nil]
    omega
  rw [hlen, List.take_left]
  exact drop_append_cons _ _ _

theorem parse_type_frame_list (payload : List Char) (hL : payload.length < 2 ^ 64) :
    parse_type (wrapFrame ']' payload) = .ok .List := by
  rw [show wrapFrame ']' payload =
    natStr payload.length ++ ':' :: (payload ++ ']' :: []) from rfl]
  rw [parse_type_frame _ _ _ hL]
  rw [if_neg (by decide), if_neg (by decide), if_neg (by decide), if_neg (by decide),
    if_neg (by decide), if_pos rfl]

theorem parse_type_frame_dict (payload : List Char) (hL : payload.length < 2 ^ 64) :
    parse_type (wrapFrame '\x7d' payload) = .ok .Dict := by
  rw [show wrapFrame '\x7d' payload =
    natStr payload.length ++ ':' :: (payload ++ '\x7d' :: []) from rfl]
  rw [parse_type_frame _ _ _ hL]
  rw [if_neg (by decide), if_neg (by decide), if_neg (by decide), if_neg (by decide),
    if_neg (by decide), if_neg (by decide), if_pos rfl]

theorem findColon_wrapFrame (payload : List Char) (tag : Char) :
    findColon (wrapFrame tag payload) = some (natStr payload.length).length := by
  rw [show wrapFrame tag payload =
    natStr payload.length ++ ':' :: (payload ++ tag :: []) from rfl]
  exact frame_findColon _ _ _

theorem getLast_append_singleton (l : List Char) (a : Char) :
    (l ++ [a]).getLast? = some a := by
  induction l with
  | nil => rfl
  | cons x xs ih =>
    rw [List.cons_append]
    rw [List.getLast?_cons]
    rw [ih]
    rfl

theorem wrapFrame_getLast (tag : Char) (b : List Char) :
    (wrapFrame tag b).getLast? = some tag := by
  rw [show wrapFrame tag b =
    (natStr b.length ++ ':' :: b) ++ [tag] by simp [wrapFrame]]
  exact getLast_append_singleton _ _

theorem parse_type_frame_comma (s : List Char) (hL : s.length < 2 ^ 64) :
    parse_type (wrapFrame ',' s) = .ok .Str :=
  parse_type_frame_str s [] hL

theorem iw_range (w : IntW) (z : Int) (h1 : iwLo w ≤ z) (h2 : z ≤ iwHi w) :
    -(2 ^ 63) ≤ z ∧ z < 2 ^ 63 := by
  cases w <;> simp only [iwLo, iwHi] at h1 h2 <;> omega

theorem tupElemsF_encoded (elems : List Scalar) (hwf : elems.all wfSc = true) :
    tupElemsF (elems.map scShape) (seqPayload elems) = .ok (elems, []) := by
  induction elems with
  | nil => rfl
  | cons sc scs ih =>
    simp only [List.all_cons, Bool.and_eq_true] at hwf
    rw [show (sc :: scs).map scShape = scShape sc :: scs.map scShape from rfl]
    rw [seqPayload_cons]
    unfold tupElemsF
    rw [if_neg (by rw [isEmpty_append_false _ _ (encScalar_ne_nil sc)]; simp)]
    rw [decodeScalar_frame sc _ hwf.1]
    dsimp only
    rw [ih hwf.2]

theorem struktFieldsF_encoded (fields : List (List Char × Scalar))
    (hwf : fields.all (fun p => wfSc p.2 && decide (p.1.length < 2 ^ 64)) = true) :
    struktFieldsF (fields.map (fun p => (p.1, scShape p.2))) (mapPayload fields) =
      .ok (fields, []) := by
  induction fields with
  | nil => rfl
  | cons p fs ih =>
    obtain ⟨k, sc⟩ := p
    simp only [List.all_cons, Bool.and_eq_true, decide_eq_true_eq] at hwf
    rw [show ((k, sc) :: fs).map (fun p => (p.1, scShape p.2)) =
      (k, scShape sc) :: fs.map (fun p => (p.1, scShape p.2)) from rfl]
    rw [mapPayload_cons]
    unfold struktFieldsF
    rw [List.append_assoc]
    rw [if_neg (by
      rw [isEmpty_append_false _ _ (by simp [frameStr, wrapFrame])]
      simp)]
    rw [show frameStr k = wrapFrame ',' k from rfl]
    rw [parse_string_frame k _ hwf.1.2]
    dsimp only
    rw [if_pos rfl]
    rw [decodeScalar_frame sc _ hwf.1.1]
    dsimp only
    rw [ih hwf.2]

/-! ## Claim theorems -/

/-- C3: the untyped framing primitive is not total — when the input consists
entirely of decimal digits (the input ends during the digit run, so no byte
occupies the colon position), `parse_tag` advances its index past the end of
the slice and Rust panics instead of returning `UnableToParseInt` or
`UnableToTake`.  The panic is evaluated here at the inputs `4` and `123`,
both through `parse_tag` and through the composed primitive `split_data`. -/
theorem c3_all_digit_input_panics :
    parse_tag (("4").toList) = .error .panic ∧
    split_data (("4").toList) = .error .panic ∧
    parse_tag (("123").toList) = .error .panic ∧
    split_data (("123").toList) = .error .panic := ⟨rfl, rfl, rfl, rfl⟩

/-- C2: the untyped parser does not return the bytes following a list or dict
frame.  For the input built of the empty-list frame followed by a boolean
frame, `parse` succeeds but returns the exhausted inner payload (empty)
instead of the seven following bytes, and likewise for a dict frame followed
by further bytes — the compound branches of `parse` return `remain_content`
rather than the input after the frame's tag byte. -/
theorem c2_compound_frame_drops_remainder :
    parse (("0:]4:true!").toList) = .ok ([], .list []) ∧
    ([] : List Char) ≠ ("4:true!").toList ∧
    parse (("16:5:hello,5:world,\x7d3:bar,").toList) =
      .ok ([], .dict [(("hello").toList, .str (("world").toList))]) ∧
    ([] : List Char) ≠ ("3:bar,").toList :=
  ⟨rfl, by decide, rfl, by decide⟩

/-- C5: for every frame the untyped parser accepts whose tag byte is the
exclamation mark, the result is the boolean telling whether the payload
length equals four, and the returned remainder is the input after the tag
byte; the payload content is never inspected. -/
theorem c5_bool_length_quirk (data rest content : List Char)
    (h : split_data data = .ok ('!' :: rest, content)) :
    parse data = .ok (rest, .bool (content.length == 4)) := by
  show parseAux ((data.length + 1) + 1) .one data = _
  rw [parseAux_succ_one, h]
  dsimp only [parseDispatch]
  have ht : take' ('!' :: rest) 1 = .ok (rest, ['!']) := by
    unfold take'
    rw [if_pos (by simp)]
    rfl
  rw [ht]
  dsimp only
  rw [if_pos rfl]

/-- C5 witness: the two payload-length examples of the claim, obtained by
applying the general theorem at concrete inputs. -/
theorem c5_bool_length_quirk_witness :
    parse (("4:xyz%!").toList) = .ok ([], .bool true) ∧
    parse (("5:aaaaa!").toList) = .ok ([], .bool false) :=
  ⟨c5_bool_length_quirk _ [] (("xyz%").toList) rfl,
   c5_bool_length_quirk _ [] (("aaaaa").toList) rfl⟩

/-- C8: requesting a 32-bit or a 64-bit float from the typed deserializer
fails with `UnsupportedType` on every input, including well-formed numeric
frames. -/
theorem c8_floats_unsupported (s : List Char) :
    from_str .f32 s = .error (.e .UnsupportedType) ∧
    from_str .f64 s = .error (.e .UnsupportedType) := ⟨rfl, rfl⟩

/-- C9: the typed serializer emits the identical text for the none value,
for unit, and for some-of-unit; the typed deserializer's option decode turns
every input beginning with the null frame into the none value; consequently
decoding the encoding of some-of-unit yields none. -/
theorem c9_option_unit_aliasing :
    to_string (FValue.someScalar .unit) = .ok (("0:~").toList) ∧
    to_string FValue.nne = .ok (("0:~").toList) ∧
    to_string (FValue.scalar .unit) = .ok (("0:~").toList) ∧
    (∀ (ssh : SShape) (s : List Char), startsWithL (("0:~").toList) s = true →
      decodeTop (.opt ssh) s = .ok (.nne, s.drop 3)) ∧
    from_str (Shape.opt .unit) (("0:~").toList) = .ok FValue.nne := by
  refine ⟨rfl, rfl, rfl, ?_, rfl⟩
  intro ssh s h
  unfold decodeTop
  dsimp only
  rw [if_pos h]

/-- C9 witness: the option decode of the general clause applied at a
concrete input beginning with the null frame. -/
theorem c9_option_unit_aliasing_witness :
    decodeTop (.opt .i64) (("0:~xyz").toList) = .ok (.nne, ("xyz").toList) :=
  c9_option_unit_aliasing.2.2.2.1 .i64 (("0:~xyz").toList) rfl

/-- C1 counterexample: the round-trip fails on the value some-of-unit — its
encoding is the null frame, which the option decode reads back as none, a
different value. -/
theorem c1_roundtrip_cex :
    to_string (FValue.someScalar .unit) = .ok (("0:~").toList) ∧
    from_str (Shape.opt .unit) (("0:~").toList) = .ok FValue.nne ∧
    FValue.nne ≠ FValue.someScalar .unit := ⟨rfl, rfl, by decide⟩

/-- C1 (amended): round-trip of the typed adapter on the proved fragment —
booleans; 64-bit signed, 64-bit unsigned and 32-bit unsigned integers
within their ranges; the forwarded sub-64-bit integer widths; strings;
unit; none; some of a non-unit scalar; sequences, tuples and flat structs
over scalars; string-keyed maps of scalars; and enum variants (a unit
variant, a newtype variant over a scalar, a tuple variant over scalars,
and a struct variant with exactly one scalar field) — with every frame
length representable as a 64-bit usize (the well-formedness predicate):
decoding the text produced by encoding the value yields the value again.
The counterexample refutes the unrestricted claim: some-of-unit encodes as
the null frame and decodes back to none. -/
theorem c1_roundtrip (v : FValue) (sh : Shape) (hwf : wfF v = true)
    (hsh : hasShapeF v sh = true) :
    ∃ t, to_string v = .ok t ∧ from_str sh t = .ok v := by
  refine ⟨encF v, to_string_encF v hwf, ?_⟩
  cases v with
  | scalar sc =>
    cases sh
    case sc ssh =>
      have hs : scShape sc = ssh := by
        have hb : (scShape sc == ssh) = true := hsh
        simpa using hb
      subst hs
      have hwfs : wfSc sc = true := hwf
      apply from_str_of_decodeTop
      simp only [decodeTop]
      have hds : decodeScalar (scShape sc) (encScalar sc) = .ok (sc, []) := by
        have hd := decodeScalar_frame sc [] hwfs
        rwa [List.append_nil] at hd
      rw [show encF (.scalar sc) = encScalar sc from rfl, hds]
    all_goals exact Bool.noConfusion hsh
  | someScalar sc =>
    cases sh
    case opt ssh =>
      have hs : scShape sc = ssh := by
        have hb : (scShape sc == ssh) = true := hsh
        simpa using hb
      subst hs
      have h1 : wfSc sc = true ∧ sc ≠ Scalar.unit := by
        have hb : (wfSc sc && decide (sc ≠ Scalar.unit)) = true := hwf
        have hand := (Bool.and_eq_true _ _).mp hb
        exact ⟨hand.1, of_decide_eq_true hand.2⟩
      apply from_str_of_decodeTop
      simp only [decodeTop]
      rw [show encF (.someScalar sc) = encScalar sc from rfl]
      have hsw : startsWithL (("0:~").toList) (encScalar sc) = false := by
        have hp := enc_not_null_head sc [] h1.2
        rwa [List.append_nil] at hp
      rw [if_neg (by rw [hsw]; simp)]
      have hds : decodeScalar (scShape sc) (encScalar sc) = .ok (sc, []) := by
        have hd := decodeScalar_frame sc [] h1.1
        rwa [List.append_nil] at hd
      rw [hds]
    all_goals exact Bool.noConfusion hsh
  | nne =>
    cases sh
    case opt ssh => exact from_str_of_decodeTop _ _ _ rfl
    all_goals exact Bool.noConfusion hsh
  | seq scs =>
    cases sh
    case seq ssh =>
      have hall : scs.all (fun sc => scShape sc == ssh) = true := hsh
      have hw : scs.all wfSc = true ∧ (seqPayload scs).length < 2 ^ 64 := by
        have hb : (scs.all wfSc && decide ((seqPayload scs).length < 2 ^ 64)) = true := hwf
        have hand := (Bool.and_eq_true _ _).mp hb
        exact ⟨hand.1, of_decide_eq_true hand.2⟩
      apply from_str_of_decodeTop
      simp only [decodeTop]
      rw [show encF (.seq scs) = wrapFrame ']' (seqPayload scs) from rfl]
      rw [parse_type_frame_list _ hw.2, findColon_wrapFrame]
      dsimp only
      rw [narrow_wrapFrame]
      rw [seqLoopF_encoded ssh scs _ [] hw.1 hall (le_refl _)]
      dsimp only
      rw [List.nil_append]
    all_goals exact Bool.noConfusion hsh
  | map ps =>
    cases sh
    case map vsh =>
      have hall : ps.all (fun p => scShape p.2 == vsh) = true := hsh
      have hw : ps.all (fun p => wfSc p.2 && decide (p.1.length < 2 ^ 64)) = true ∧
          (mapPayload ps).length < 2 ^ 64 := by
        have hb : (ps.all (fun p => wfSc p.2 && decide (p.1.length < 2 ^ 64)) &&
            decide ((mapPayload ps).length < 2 ^ 64)) = true := hwf
        have hand := (Bool.and_eq_true _ _).mp hb
        exact ⟨hand.1, of_decide_eq_true hand.2⟩
      apply from_str_of_decodeTop
      simp only [decodeTop]
      rw [show encF (.map ps) = wrapFrame '\x7d' (mapPayload ps) from rfl]
      rw [parse_type_frame_dict _ hw.2, findColon_wrapFrame]
      dsimp only
      rw [narrow_wrapFrame]
      rw [mapLoopF_encoded vsh ps _ [] hw.1 hall (le_refl _)]
      dsimp only
      rw [List.nil_append]
    all_goals exact Bool.noConfusion hsh
  | structVariant name fields =>
    cases sh
    case enm vs =>
      have hb : decide (vLookup name vs =
          some (VShape.structV (fields.map (fun p => (p.1, scShape p.2))))) = true := hsh
      have hv := of_decide_eq_true hb
      have hw := hwf
      simp only [wfF, Bool.and_eq_true, decide_eq_true_eq] at hw
      apply from_str_of_decodeTop
      simp only [decodeTop]
      rw [show encF (.structVariant name fields) =
        wrapFrame '\x7d' (frameStr name ++ wrapFrame '\x7d' (mapPayload fields)) from rfl]
      rw [parse_type_frame_dict _ hw.2]
      dsimp only
      rw [findColon_wrapFrame]
      dsimp only
      rw [narrow_wrapFrame]
      rw [show frameStr name = wrapFrame ',' name from rfl]
      rw [parse_string_frame name _ hw.1.1.2]
      dsimp only
      rw [hv]
      dsimp only
      rw [parse_type_frame_dict _ hw.1.2]
      dsimp only
      rw [findColon_wrapFrame]
      dsimp only
      rw [narrow_wrapFrame]
      rw [struktFieldsF_encoded fields hw.1.1.1.2]
    all_goals exact Bool.noConfusion hsh
  | smallInt w z =>
    cases sh
    case smallInt w2 =>
      have hwq : w = w2 := by
        have hb : (w == w2) = true := hsh
        simpa using hb
      subst hwq
      have hr : iwLo w ≤ z ∧ z ≤ iwHi w := of_decide_eq_true hwf
      apply from_str_of_decodeTop
      simp only [decodeTop]
      rw [show encF (.smallInt w z) = wrapFrame '#' (intStr z) from rfl]
      rw [wrapFrame_getLast]
      dsimp only
      rw [if_pos rfl]
      have hrg := iw_range w z hr.1 hr.2
      have hps := parse_signed_frame z [] hrg.1 hrg.2
      rw [List.append_nil] at hps
      rw [hps]
      dsimp only
      rw [if_pos hr]
    all_goals exact Bool.noConfusion hsh
  | tup elems =>
    cases sh
    case tup ss =>
      have hb : decide (elems.map scShape = ss) = true := hsh
      have hs := of_decide_eq_true hb
      subst hs
      have hw : elems.all wfSc = true ∧ (seqPayload elems).length < 2 ^ 64 := by
        have hb2 : (elems.all wfSc && decide ((seqPayload elems).length < 2 ^ 64)) = true := hwf
        have hand := (Bool.and_eq_true _ _).mp hb2
        exact ⟨hand.1, of_decide_eq_true hand.2⟩
      apply from_str_of_decodeTop
      simp only [decodeTop]
      rw [show encF (.tup elems) = wrapFrame ']' (seqPayload elems) from rfl]
      rw [wrapFrame_getLast]
      dsimp only
      rw [if_pos rfl]
      rw [parse_type_frame_list _ hw.2]
      dsimp only
      rw [findColon_wrapFrame]
      dsimp only
      rw [narrow_wrapFrame]
      rw [tupElemsF_encoded elems hw.1]
    all_goals exact Bool.noConfusion hsh
  | strukt fields =>
    cases sh
    case strukt fs =>
      have hb : decide (fields.map (fun p => (p.1, scShape p.2)) = fs) = true := hsh
      have hs := of_decide_eq_true hb
      subst hs
      have hw : fields.all (fun p => wfSc p.2 && decide (p.1.length < 2 ^ 64)) = true ∧
          (mapPayload fields).length < 2 ^ 64 := by
        have hb2 : (fields.all (fun p => wfSc p.2 && decide (p.1.length < 2 ^ 64)) &&
            decide ((mapPayload fields).length < 2 ^ 64)) = true := hwf
        have hand := (Bool.and_eq_true _ _).mp hb2
        exact ⟨hand.1, of_decide_eq_true hand.2⟩
      apply from_str_of_decodeTop
      simp only [decodeTop]
      rw [show encF (.strukt fields) = wrapFrame '\x7d' (mapPayload fields) from rfl]
      rw [wrapFrame_getLast]
      dsimp only
      rw [if_pos rfl]
      rw [parse_type_frame_dict _ hw.2]
      dsimp only
      rw [findColon_wrapFrame]
      dsimp only
      rw [narrow_wrapFrame]
      rw [struktFieldsF_encoded fields hw.1]
    all_goals exact Bool.noConfusion hsh
  | unitVariant name =>
    cases sh
    case enm vs =>
      have hb : decide (vLookup name vs = some VShape.unitV) = true := hsh
      have hv := of_decide_eq_true hb
      have hn : name.length < 2 ^ 64 := of_decide_eq_true hwf
      apply from_str_of_decodeTop
      simp only [decodeTop]
      rw [show encF (.unitVariant name) = wrapFrame ',' name from rfl]
      rw [parse_type_frame_comma name hn]
      dsimp only
      rw [findColon_wrapFrame]
      dsimp only
      rw [narrow_wrapFrame]
      rw [hv]
    all_goals exact Bool.noConfusion hsh
  | newtypeVariant name sc =>
    cases sh
    case enm vs =>
      have hb : decide (vLookup name vs = some (VShape.newtypeV (scShape sc))) = true := hsh
      have hv := of_decide_eq_true hb
      have hw : wfSc sc = true ∧ name.length < 2 ^ 64 ∧
          (frameStr name ++ encScalar sc).length < 2 ^ 64 := by
        have hb2 : ((wfSc sc && decide (name.length < 2 ^ 64)) &&
            decide ((frameStr name ++ encScalar sc).length < 2 ^ 64)) = true := hwf
        have h3 := (Bool.and_eq_true _ _).mp hb2
        have h4 := (Bool.and_eq_true _ _).mp h3.1
        exact ⟨h4.1, of_decide_eq_true h4.2, of_decide_eq_true h3.2⟩
      apply from_str_of_decodeTop
      simp only [decodeTop]
      rw [show encF (.newtypeVariant name sc) =
        wrapFrame '\x7d' (frameStr name ++ encScalar sc) from rfl]
      rw [parse_type_frame_dict _ hw.2.2]
      dsimp only
      rw [findColon_wrapFrame]
      dsimp only
      rw [narrow_wrapFrame]
      rw [show frameStr name = wrapFrame ',' name from rfl]
      rw [parse_string_frame name _ hw.2.1]
      dsimp only
      rw [hv]
      dsimp only
      have hds := decodeScalar_frame sc [] hw.1
      rw [List.append_nil] at hds
      rw [hds]
    all_goals exact Bool.noConfusion hsh
  | tupleVariant name elems =>
    cases sh
    case enm vs =>
      have hb : decide (vLookup name vs =
          some (VShape.tupleV (elems.map scShape))) = true := hsh
      have hv := of_decide_eq_true hb
      have hw : elems.all wfSc = true ∧ name.length < 2 ^ 64 ∧
          (seqPayload elems).length < 2 ^ 64 ∧
          (frameStr name ++ wrapFrame ']' (seqPayload elems)).length < 2 ^ 64 := by
        have hb2 : (((elems.all wfSc && decide (name.length < 2 ^ 64)) &&
            decide ((seqPayload elems).length < 2 ^ 64)) &&
            decide ((frameStr name ++ wrapFrame ']' (seqPayload elems)).length < 2 ^ 64))
            = true := hwf
        have h3 := (Bool.and_eq_true _ _).mp hb2
        have h4 := (Bool.and_eq_true _ _).mp h3.1
        have h5 := (Bool.and_eq_true _ _).mp h4.1
        exact ⟨h5.1, of_decide_eq_true h5.2, of_decide_eq_true h4.2, of_decide_eq_true h3.2⟩
      apply from_str_of_decodeTop
      simp only [decodeTop]
      rw [show encF (.tupleVariant name elems) =
        wrapFrame '\x7d' (frameStr name ++ wrapFrame ']' (seqPayload elems)) from rfl]
      rw [parse_type_frame_dict _ hw.2.2.2]
      dsimp only
      rw [findColon_wrapFrame]
      dsimp only
      rw [narrow_wrapFrame]
      rw [show frameStr name = wrapFrame ',' name from rfl]
      rw [parse_string_frame name _ hw.2.1]
      dsimp only
      rw [hv]
      dsimp only
      rw [parse_type_frame_list _ hw.2.2.1]
      dsimp only
      rw [findColon_wrapFrame]
      dsimp only
      rw [narrow_wrapFrame]
      rw [tupElemsF_encoded elems hw.1]
    all_goals exact Bool.noConfusion hsh

/-- C1 witness: the amended theorem applied at concrete values — the spec's
own sequence example (a vector of two 64-bit integers) and the test suite's
one-field struct variant decoded through its enum shape. -/
theorem c1_roundtrip_witness :
    (wfF (.seq [.i64 10, .i64 10]) = true ∧
     hasShapeF (.seq [.i64 10, .i64 10]) (.seq .i64) = true ∧
     ∃ t, to_string (.seq [.i64 10, .i64 10]) = .ok t ∧
       from_str (.seq .i64) t = .ok (.seq [.i64 10, .i64 10])) ∧
    (wfF (.structVariant (("Struct").toList) [(("a").toList, .u32 1)]) = true ∧
     hasShapeF (.structVariant (("Struct").toList) [(("a").toList, .u32 1)])
       (.enm [(("Struct").toList, .structV [(("a").toList, .u32)])]) = true ∧
     ∃ t, to_string (.structVariant (("Struct").toList) [(("a").toList, .u32 1)]) =
         .ok t ∧
       from_str (.enm [(("Struct").toList, .structV [(("a").toList, .u32)])]) t =
         .ok (.structVariant (("Struct").toList) [(("a").toList, .u32 1)])) :=
  ⟨⟨rfl, rfl, c1_roundtrip (.seq [.i64 10, .i64 10]) (.seq .i64) rfl rfl⟩,
   ⟨rfl, rfl, c1_roundtrip (.structVariant (("Struct").toList) [(("a").toList, .u32 1)])
     (.enm [(("Struct").toList, .structV [(("a").toList, .u32)])]) rfl rfl⟩⟩

/-- C4 (amended): for a struct variant with exactly one field the serializer
emits the variant name as a plain string frame into the current buffer and,
on completion, wraps the combined name-plus-payload buffer as one dict
frame; in particular the claim's example encodes as stated.  (With two or
more fields each field pushes its own fresh buffer and only the last is
popped, so the claimed shape does not hold there — see the
counterexample.) -/
theorem c4_struct_variant_one_field :
    (∀ (name k : List Char) (sc : Scalar),
      to_string (.structVariant name [(k, sc)]) =
        .ok (wrapFrame '\x7d' (frameStr name ++ wrapFrame '\x7d' (frameStr k ++ encScalar sc)))) ∧
    to_string (.structVariant (("Struct").toList) [(("a").toList, .i64 1)]) =
      .ok (("20:6:Struct,8:1:a,1:1#\x7d\x7d").toList) :=
  ⟨fun _ _ _ => rfl, rfl⟩

/-- C4 counterexample: a struct variant with two fields does not encode in
the claimed shape — the result drops the variant name and the first field's
buffer is wrapped around the second field's dict frame; the claimed shape
(name frame followed by one dict frame holding both fields, wrapped
together) would be the second text below, which differs from the actual
output. -/
theorem c4_struct_variant_two_fields_cex :
    to_string (.structVariant (("Struct").toList)
        [(("a").toList, .i64 1), (("b").toList, .i64 2)]) =
      .ok (("19:1:a,1:1#8:1:b,1:2#\x7d\x7d").toList) ∧
    ("19:1:a,1:1#8:1:b,1:2#\x7d\x7d").toList ≠
      ("28:6:Struct,16:1:a,1:1#1:b,1:2#\x7d\x7d").toList :=
  ⟨rfl, by decide⟩

/-- C6: the typed deserializer's boolean parse succeeds exactly on inputs
beginning with the literal seven-byte true frame or eight-byte false frame
(yielding the corresponding boolean and the bytes after the literal), and on
every other input fails with `ParsingBool` — content is matched exactly, not
coerced by length. -/
theorem c6_bool_exact_match (s : List Char) :
    (∀ b rest, parse_bool s = .ok (b, rest) ↔
      ((b = true ∧ s = ("4:true!").toList ++ rest) ∨
       (b = false ∧ s = ("5:false!").toList ++ rest))) ∧
    (startsWithL (("4:true!").toList) s = false →
     startsWithL (("5:false!").toList) s = false →
     parse_bool s = .error (.e .ParsingBool)) := by
  constructor
  · intro b rest
    unfold parse_bool
    by_cases h1 : startsWithL (("4:true!").toList) s = true
    · rw [if_pos h1]
      obtain ⟨t, rfl⟩ := (startsWithL_iff _ _).mp h1
      have hd : (("4:true!").toList ++ t).drop 7 = t := rfl
      rw [hd]
      constructor
      · intro heq
        injection heq with h
        injection h with hb hr
        left
        exact ⟨hb.symm, by rw [← hr]⟩
      · rintro (⟨rfl, heq⟩ | ⟨rfl, heq⟩)
        · have ht : t = rest := List.append_cancel_left heq
          rw [ht]
        · exfalso
          have hA : startsWithL (("5:false!").toList) (("4:true!").toList ++ t) = false := rfl
          rw [heq, startsWithL_self_append] at hA
          exact Bool.noConfusion hA
    · rw [if_neg h1]
      by_cases h2 : startsWithL (("5:false!").toList) s = true
      · rw [if_pos h2]
        obtain ⟨t, rfl⟩ := (startsWithL_iff _ _).mp h2
        have hd : (("5:false!").toList ++ t).drop 8 = t := rfl
        rw [hd]
        constructor
        · intro heq
          injection heq with h
          injection h with hb hr
          right
          exact ⟨hb.symm, by rw [← hr]⟩
        · rintro (⟨rfl, heq⟩ | ⟨rfl, heq⟩)
          · exfalso
            have hA : startsWithL (("4:true!").toList) (("5:false!").toList ++ t) = false := rfl
            rw [heq, startsWithL_self_append] at hA
            exact Bool.noConfusion hA
          · have ht : t = rest := List.append_cancel_left heq
            rw [ht]
      · rw [if_neg h2]
        constructor
        · intro heq
          exact absurd heq (by simp)
        · rintro (⟨rfl, rfl⟩ | ⟨rfl, rfl⟩)
          · exact absurd (startsWithL_self_append _ rest) h1
          · exact absurd (startsWithL_self_append _ rest) h2
  · intro h1 h2
    unfold parse_bool
    rw [if_neg (by rw [h1]; simp), if_neg (by rw [h2]; simp)]

/-- C7: the top-level typed decode returns `UnusedParseData` exactly when the
requested value deserializes successfully from a proper prefix of the input
(unconsumed bytes remain); and when the value consumes the input exactly, the
decoded value is returned.  The equivalence uses that no component of the
deserializer ever raises `UnusedParseData` itself. -/
theorem c7_trailing_data (sh : Shape) (s : List Char) :
    (from_str sh s = .error (.e .UnusedParseData) ↔
      ∃ v rest, decodeTop sh s = .ok (v, rest) ∧ rest ≠ []) ∧
    (∀ v, decodeTop sh s = .ok (v, []) → from_str sh s = .ok v) := by
  constructor
  · constructor
    · intro h
      unfold from_str at h
      split at h
      · rename_i v rest heq
        split at h
        · exact absurd h (by simp)
        · rename_i hne
          refine ⟨v, rest, heq, ?_⟩
          intro hnil
          rw [hnil] at hne
          exact hne rfl
      · rename_i e heq
        injection h with h'
        exact absurd h' (decodeTop_no_upd sh s e heq)
    · rintro ⟨v, rest, hok, hne⟩
      unfold from_str
      rw [hok]
      dsimp only
      rw [if_neg (by simpa using hne)]
  · intro v h
    unfold from_str
    rw [h]
    dsimp only
    rw [if_pos (by decide)]

/-- C7 witness: a boolean frame followed by trailing bytes is rejected with
`UnusedParseData`, and the same frame alone decodes, both by applying the
theorem at concrete inputs. -/
theorem c7_trailing_data_witness :
    from_str (.sc .bool) (("4:true!3:x").toList) = .error (.e .UnusedParseData) ∧
    from_str (.sc .bool) (("4:true!").toList) = .ok (.scalar (.bool true)) :=
  ⟨(c7_trailing_data (.sc .bool) (("4:true!3:x").toList)).1.mpr
      ⟨.scalar (.bool true), ("3:x").toList, rfl, by decide⟩,
   (c7_trailing_data (.sc .bool) (("4:true!").toList)).2 (.scalar (.bool true)) rfl⟩

/-- C6 witness: a four-byte payload with the bool tag that is not the true
literal is rejected by the typed adapter, by the second clause of the
theorem at a concrete input. -/
theorem c6_bool_exact_match_witness :
    parse_bool (("4:xyz%!").toList) = .error (.e .ParsingBool) :=
  (c6_bool_exact_match (("4:xyz%!").toList)).2 rfl rfl

theorem parse_nil : parse ([] : List Char) = .error (.err .UnableToParseInt) := rfl

theorem isEmpty_false_of_parse_ok (d : List Char) (r : List Char × TNetString)
    (h : parse d = .ok r) : d.isEmpty = false := by
  cases d with
  | nil =>
    rw [parse_nil] at h
    exact Except.noConfusion h
  | cons a l => rfl

theorem dictInsert_replace (k : List Char) (v1 v2 : TNetString) :
    dictInsert [(k, v1)] k v2 = [(k, v2)] := by
  unfold dictInsert
  rw [if_pos (by simp)]
  simp

/-- The two-pair dict loop of `parse` (lib.rs) under the four given frame
parses: the loop inserts the first pair, then the second pair with the same
key (overwriting the first binding), and terminates successfully on the
exhausted payload. -/
theorem dictLoop_two_pairs (k : List Char) (v1 v2 : TNetString)
    (kb1 vb1 kb2 vb2 : List Char)
    (h1 : parse (kb1 ++ (vb1 ++ (kb2 ++ vb2))) = .ok (vb1 ++ (kb2 ++ vb2), .str k))
    (h2 : parse (vb1 ++ (kb2 ++ vb2)) = .ok (kb2 ++ vb2, v1))
    (h3 : parse (kb2 ++ vb2) = .ok (vb2, .str k))
    (h4 : parse vb2 = .ok ([], v2)) :
    ∀ n : Nat, (kb1 ++ (vb1 ++ (kb2 ++ vb2))).length + 3 ≤ n →
      parseAux (n + 1) (.dict []) (kb1 ++ (vb1 ++ (kb2 ++ vb2))) =
        .ok ([], .dict [(k, v2)]) := by
  intro n hn
  simp only [List.length_append] at hn
  rw [parseAux_succ_dict]
  rw [if_neg (by rw [isEmpty_false_of_parse_ok _ _ h1]; simp)]
  have c1 : parseAux n .one (kb1 ++ (vb1 ++ (kb2 ++ vb2))) =
      .ok (vb1 ++ (kb2 ++ vb2), .str k) :=
    parseAux_mono _ n .one _ _ h1 (by simp only [List.length_append]; omega)
  rw [c1]
  dsimp only
  have c2 : parseAux n .one (vb1 ++ (kb2 ++ vb2)) = .ok (kb2 ++ vb2, v1) :=
    parseAux_mono _ n .one _ _ h2 (by simp only [List.length_append]; omega)
  rw [c2]
  dsimp only
  rw [show dictInsert [] k v1 = [(k, v1)] from rfl]
  obtain ⟨m, rfl⟩ : ∃ m, n = m + 1 := ⟨n - 1, by omega⟩
  rw [parseAux_succ_dict]
  rw [if_neg (by rw [isEmpty_false_of_parse_ok _ _ h3]; simp)]
  have c3 : parseAux m .one (kb2 ++ vb2) = .ok (vb2, .str k) :=
    parseAux_mono _ m .one _ _ h3 (by simp only [List.length_append]; omega)
  rw [c3]
  dsimp only
  have c4 : parseAux m .one vb2 = .ok ([], v2) :=
    parseAux_mono _ m .one _ _ h4 (by omega)
  rw [c4]
  dsimp only
  rw [dictInsert_replace]
  obtain ⟨m', rfl⟩ : ∃ m', m = m' + 1 := ⟨m - 1, by omega⟩
  rw [parseAux_succ_dict]
  rw [if_pos (show (([] : List Char)).isEmpty = true from rfl)]

/-- C10: when a dict payload consists of two well-formed key/value pairs
whose string keys are equal, the untyped parser reports no error and returns
a dict in which that key is bound to the value of the later pair.  The four
parse hypotheses say the payload splits into two key frames (both decoding
to the string key) and two value frames, exactly as consumed by the
source's `parse_pair`; the first two conclusions restate them as the two
pair parses, and the dict lookup of the key yields the later value. -/
theorem c10_dict_duplicate_keys (k : List Char) (v1 v2 : TNetString)
    (kb1 vb1 kb2 vb2 : List Char)
    (h1 : parse (kb1 ++ (vb1 ++ (kb2 ++ vb2))) = .ok (vb1 ++ (kb2 ++ vb2), .str k))
    (h2 : parse (vb1 ++ (kb2 ++ vb2)) = .ok (kb2 ++ vb2, v1))
    (h3 : parse (kb2 ++ vb2) = .ok (vb2, .str k))
    (h4 : parse vb2 = .ok ([], v2))
    (hL : (kb1 ++ (vb1 ++ (kb2 ++ vb2))).length < 2 ^ 64) :
    parse_pair (kb1 ++ (vb1 ++ (kb2 ++ vb2))) = .ok (kb2 ++ vb2, (k, v1)) ∧
    parse_pair (kb2 ++ vb2) = .ok ([], (k, v2)) ∧
    parse (natStr (kb1 ++ (vb1 ++ (kb2 ++ vb2))).length ++ ':' ::
        ((kb1 ++ (vb1 ++ (kb2 ++ vb2))) ++ ['\x7d'])) = .ok ([], .dict [(k, v2)]) ∧
    dictLookup [(k, v2)] k = some v2 := by
  refine ⟨?_, ?_, ?_, ?_⟩
  · unfold parse_pair
    rw [h1]
    dsimp only
    rw [h2]
  · unfold parse_pair
    rw [h3]
    dsimp only
    rw [h4]
  · have hD : 1 ≤ (natStr (kb1 ++ (vb1 ++ (kb2 ++ vb2))).length).length :=
      List.length_pos.mpr (natStr_ne_nil _)
    show parseAux _ .one _ = _
    have hflen : (natStr (kb1 ++ (vb1 ++ (kb2 ++ vb2))).length ++ ':' ::
        ((kb1 ++ (vb1 ++ (kb2 ++ vb2))) ++ ['\x7d'])).length + 2 =
        ((natStr (kb1 ++ (vb1 ++ (kb2 ++ vb2))).length ++ ':' ::
          ((kb1 ++ (vb1 ++ (kb2 ++ vb2))) ++ ['\x7d'])).length + 1) + 1 := rfl
    rw [hflen, parseAux_succ_one, split_data_frame _ _ hL]
    dsimp only
    unfold parseDispatch
    rw [show take' ['\x7d'] 1 = .ok ([], ['\x7d']) from rfl]
    dsimp only
    rw [if_neg (by decide), if_neg (by decide), if_neg (by decide), if_neg (by decide),
      if_neg (by decide), if_neg (by decide), if_pos rfl]
    have hge : (kb1 ++ (vb1 ++ (kb2 ++ vb2))).length + 3 ≤
        (natStr (kb1 ++ (vb1 ++ (kb2 ++ vb2))).length ++ ':' ::
          ((kb1 ++ (vb1 ++ (kb2 ++ vb2))) ++ ['\x7d'])).length := by
      simp only [List.length_append, List.length_cons, List.length_nil] at hD ⊢
      omega
    exact dictLoop_two_pairs k v1 v2 kb1 vb1 kb2 vb2 h1 h2 h3 h4 _ hge
  · simp [dictLookup]

/-- C10 witness: a dict frame whose payload binds the key twice — first to
true, then to false — parses without error to the dict binding the key to
false, by the theorem applied at concrete frames. -/
theorem c10_dict_duplicate_keys_witness :
    parse (("27:3:foo,4:true!3:foo,5:false!\x7d").toList) =
      .ok ([], .dict [(("foo").toList, .bool false)]) ∧
    dictLookup [(("foo").toList, .bool false)] (("foo").toList) = some (.bool false) := by
  have h := c10_dict_duplicate_keys (("foo").toList) (.bool true) (.bool false)
    (("3:foo,").toList) (("4:true!").toList) (("3:foo,").toList) (("5:false!").toList)
    rfl rfl rfl rfl (by decide)
  exact ⟨h.2.2.1, h.2.2.2⟩

end TNet
